/-
Verification of the student-record reconciliation engine of the
Course-Website backend.

The Python backend is shallowly embedded: Python values that flow through
the reconciliation code (JSON-ish dictionaries, strings, booleans, None /
NaN) are modelled by the inductive type `PyVal`; Python dictionaries are
modelled as association lists with insertion-order semantics (assigning to
an existing key replaces the value in place, assigning to a fresh key
appends).  Every definition below is a direct translation of a function in
`backend/`, as noted in its doc comment.
-/
import Mathlib

namespace CourseWebsite

/-- Model of the Python values handled by the reconciliation engine:
strings, booleans, integers, `None`/`NaN`, and (string-keyed)
dictionaries. -/
inductive PyVal where
  | vnone : PyVal
  | vbool : Bool → PyVal
  | vint : Int → PyVal
  | vstr : String → PyVal
  | vdict : List (String × PyVal) → PyVal
deriving Repr

mutual

/-- Python `==` on the modelled values, used by the idempotency check of
the attendance marker, which compares a stored attendance cell with a
`bool`.  (Python's cross-type promotions `True == 1` and its
order-insensitive dict equality are not reproduced: the reconciliation
code only ever compares scalars of the same runtime type.) -/
def PyVal.beq : PyVal → PyVal → Bool
  | .vnone, .vnone => true
  | .vbool a, .vbool b => a == b
  | .vint a, .vint b => a == b
  | .vstr a, .vstr b => a == b
  | .vdict a, .vdict b => PyVal.beqEntries a b
  | _, _ => false

/-- Entrywise equality of two dictionaries' entry lists. -/
def PyVal.beqEntries : List (String × PyVal) → List (String × PyVal) → Bool
  | [], [] => true
  | (k1, v1) :: t1, (k2, v2) :: t2 => k1 == k2 && PyVal.beq v1 v2 && PyVal.beqEntries t1 t2
  | _, _ => false

end

instance : BEq PyVal := ⟨PyVal.beq⟩

/-- A Python dictionary with string keys. -/
abbrev PyDict := List (String × PyVal)

/-- Keys of a dictionary, in insertion order (`dict.keys()`). -/
def keysOf {α : Type} (d : List (String × α)) : List String := d.map Prod.fst

/-- `k in d` for a Python dictionary. -/
def dcontains (d : PyDict) (k : String) : Bool := d.any (fun e => e.1 == k)

/-- `d.get(k)` returning `Option` (first entry wins; keys of a real
Python dict are unique). -/
def dget? (d : PyDict) (k : String) : Option PyVal :=
  (d.find? (fun e => e.1 == k)).map (fun e => e.2)

/-- `d.get(k, dflt)`. -/
def dget (d : PyDict) (k : String) (dflt : PyVal) : PyVal :=
  (dget? d k).getD dflt

/-- `d[k] = v`: replace in place if the key exists, else append
(Python dict insertion-order semantics). -/
def dset (d : PyDict) (k : String) (v : PyVal) : PyDict :=
  match d with
  | [] => [(k, v)]
  | (k', v') :: t => if k' == k then (k, v) :: t else (k', v') :: dset t k v

/-- Python truthiness (`bool(v)`). -/
def pyTruthy : PyVal → Bool
  | .vnone => false
  | .vbool b => b
  | .vint n => n != 0
  | .vstr s => !s.isEmpty
  | .vdict d => !d.isEmpty

/-- `str(v)` for the scalar values that reach the formatters.  A missing
pandas cell is `NaN`, whose `str()` is `"nan"`; we model both `None` and
`NaN` by `vnone` and render it as pandas does. -/
def pyStr : PyVal → String
  | .vnone => "nan"
  | .vbool b => if b then "True" else "False"
  | .vint n => toString n
  | .vstr s => s
  | .vdict _ => "{...}"

/-- `str.lower()`, over the character list (`String.toLower` itself is
not kernel-reducible, which would block evaluation). -/
def strLower (s : String) : String := ⟨s.data.map Char.toLower⟩

/-- `str.strip()`: drop leading and trailing whitespace. -/
def strStrip (s : String) : String :=
  ⟨((s.data.dropWhile Char.isWhitespace).reverse.dropWhile Char.isWhitespace).reverse⟩

/-!
## Course/module structure

`get_course_module_structure` (backend/students/student_helpers.py)
produces a plain `Dict[str, Dict[str, int]]` mapping course id → module
id → lab count; we take that mapping (as insertion-ordered association
lists) as the input of the functions below, exactly as the Python
functions do.
-/

/-- module id → lab count, for one course. -/
abbrev ModuleStructure := List (String × Nat)

/-- course id → module id → lab count (`CourseModuleStructure`). -/
abbrev CourseStructure := List (String × ModuleStructure)

/-- `course_module_structure.get(course_id, {})`. -/
def structGet (cms : CourseStructure) (c : String) : ModuleStructure :=
  ((cms.find? (fun e => e.1 == c)).map (fun e => e.2)).getD []

/-- `f"lab{n}"`. -/
def labKey (n : Nat) : String := "lab" ++ toString n

/-!
## Assignment-field migrator
(`sync_assignment_fields_to_lab_count`, backend/firestore/admin_data.py)

The per-student loop body builds a fresh nested structure by walking the
current course/module structure, preserving any existing grade at the
same (course, module, lab) path and counting every freshly inserted empty
slot as `added`; it then scans the old structure for courses/modules that
no longer exist, counting them as `removed`.  The document is written
back only when the `updated` flag was set, and the code sets that flag
exactly when it increments `added` or `removed`, so we record
`updated = (added ≠ 0 ∨ removed ≠ 0)`.
-/

/-- The innermost loop `for lab_num in range(1, lab_count + 1)`, on an
explicit list of lab numbers.  Returns the rebuilt module dictionary and
the number of `added` slots.  (The Python code assigns the keys
`lab1..labN` in order into a fresh dict, which is exactly an append.) -/
def syncLabs (existingModule : PyVal) : List Nat → PyDict × Nat
  | [] => ([], 0)
  | n :: rest =>
    let (d, a) := syncLabs existingModule rest
    match existingModule with
    | .vdict em =>
      if dcontains em (labKey n) then ((labKey n, dget em (labKey n) .vnone) :: d, a)
      else ((labKey n, .vstr "") :: d, a + 1)
    | _ => ((labKey n, .vstr "") :: d, a + 1)

/-- `existing_course.get(module_id, {}) if isinstance(existing_course,
dict) else {}`. -/
def moduleOfCourse (existingCourse : PyVal) (m : String) : PyVal :=
  match existingCourse with
  | .vdict ec => dget ec m (.vdict [])
  | _ => .vdict []

/-- The `for module_id, lab_count in modules.items()` loop: rebuilds each
module of the current structure.  `existingCourse` is
`existing_grades.get(course_id, {})`. -/
def syncModules (existingCourse : PyVal) : ModuleStructure → PyDict × Nat
  | [] => ([], 0)
  | (m, n) :: rest =>
    let em := moduleOfCourse existingCourse m
    let (labsD, a1) := syncLabs em (List.range' 1 n)
    let (restD, a2) := syncModules existingCourse rest
    ((m, .vdict labsD) :: restD, a1 + a2)

/-- The `for course_id, modules in course_module_structure.items()` loop:
build the full replacement `assignmentGrades` and the `added` count. -/
def syncCourses (existing : PyDict) : CourseStructure → PyDict × Nat
  | [] => ([], 0)
  | (c, mods) :: rest =>
    let ec := dget existing c (.vdict [])
    let (modsD, a1) := syncModules ec mods
    let (restD, a2) := syncCourses existing rest
    ((c, .vdict modsD) :: restD, a1 + a2)

/-- One iteration of the "Check for removed courses/modules" loop: `1`
when the course itself is gone from the current structure, else one per
module of `existing_grades.get(course_id, {})` (when it is a dict) that
is gone from `course_module_structure.get(course_id, {})`. -/
def removedForCourse (cms : CourseStructure) (existingFull : PyDict) (c : String) : Nat :=
  if !(cms.any fun e => e.1 == c) then 1
  else
    match dget existingFull c (.vdict []) with
    | .vdict ecd => (keysOf ecd).countP fun m => !((structGet cms c).any fun e => e.1 == m)
    | _ => 0

/-- The "Check for removed courses/modules" loop over
`existing_grades.keys()`; `existingFull` is used for the
`existing_grades.get(course_id, {})` reads. -/
def removedCount (cms : CourseStructure) (existingFull : PyDict) : PyDict → Nat
  | [] => 0
  | (c, _) :: rest => removedForCourse cms existingFull c + removedCount cms existingFull rest

/-- Result of the migrator's loop body for one student document. -/
structure SyncResult where
  updatedGrades : PyDict
  added : Nat
  removed : Nat
  updated : Bool
deriving Repr

/-- Loop body of `sync_assignment_fields_to_lab_count` for one student:
`assignmentGrades` is `data.get('assignmentGrades', {})`, coerced to `{}`
when it is not a dict.  The document is written back (with the rebuilt
grades) iff `updated` is true. -/
def sync_student_assignment_grades (cms : CourseStructure) (assignmentGrades : PyVal) : SyncResult :=
  let existing : PyDict :=
    match assignmentGrades with
    | .vdict d => d
    | _ => []
  let (ug, added) := syncCourses existing cms
  let removed := removedCount cms existing existing
  { updatedGrades := ug, added := added, removed := removed,
    updated := added != 0 || removed != 0 }

/-!
### Key-membership lemmas for the dictionary model
-/

theorem any_fst_beq_iff {α : Type} (l : List (String × α)) (k : String) :
    (l.any fun e => e.1 == k) = true ↔ k ∈ keysOf l := by
  rw [List.any_eq_true]
  constructor
  · rintro ⟨e, he, heq⟩
    rw [beq_iff_eq] at heq
    exact heq ▸ List.mem_map_of_mem Prod.fst he
  · intro hk
    rw [keysOf, List.mem_map] at hk
    obtain ⟨e, he, hek⟩ := hk
    exact ⟨e, he, by simp [hek]⟩

theorem dcontains_iff (d : PyDict) (k : String) :
    dcontains d k = true ↔ k ∈ keysOf d := any_fst_beq_iff d k

theorem mem_keysOf_iff_find?_isSome {α : Type} (l : List (String × α)) (k : String) :
    k ∈ keysOf l ↔ (l.find? fun e => e.1 == k).isSome := by
  rw [Option.isSome_iff_exists]
  constructor
  · intro hk
    rcases hf : l.find? fun e => e.1 == k with _ | e
    · rw [List.find?_eq_none] at hf
      simp only [keysOf, List.mem_map] at hk
      obtain ⟨e, he, hek⟩ := hk
      exact absurd (by simp [hek]) (hf e he)
    · exact ⟨e, hf⟩
  · rintro ⟨e, hf⟩
    have hm := List.mem_of_find?_eq_some hf
    have hk := List.find?_some hf
    simp only [beq_iff_eq] at hk
    exact hk ▸ List.mem_map_of_mem Prod.fst hm

/-- Both key sets are the same (used to state congruence of a stored
grade structure with the course/module structure, decidably). -/
def sameKeySet (l1 l2 : List String) : Bool :=
  l1.all (fun k => l2.contains k) && l2.all (fun k => l1.contains k)

theorem sameKeySet_iff (l1 l2 : List String) :
    sameKeySet l1 l2 = true ↔ ∀ k, k ∈ l1 ↔ k ∈ l2 := by
  simp only [sameKeySet, Bool.and_eq_true, List.all_eq_true]
  simp only [List.elem_eq_mem, decide_eq_true_eq]
  constructor
  · rintro ⟨h1, h2⟩ k
    exact ⟨fun hk => h1 k hk, fun hk => h2 k hk⟩
  · intro h
    exact ⟨fun k hk => (h k).1 hk, fun k hk => (h k).2 hk⟩

/-- The stored `assignmentGrades` value is congruent with the course
structure `cms`: it is a dictionary holding exactly the courses of `cms`,
each course exactly the modules of `cms`, and each module exactly the
keys `lab1..labN` for that module's lab count (as the spec's
Assignment-Field Migrator leaves them). -/
def congruentB (cms : CourseStructure) (g : PyVal) : Bool :=
  match g with
  | .vdict gd =>
    decide (keysOf gd).Nodup && sameKeySet (keysOf gd) (keysOf cms) &&
    cms.all (fun ce =>
      match dget? gd ce.1 with
      | some (.vdict cd) =>
        decide (keysOf cd).Nodup && sameKeySet (keysOf cd) (keysOf ce.2) &&
        ce.2.all (fun me =>
          match dget? cd me.1 with
          | some (.vdict md) =>
            decide (keysOf md).Nodup &&
            sameKeySet (keysOf md) ((List.range' 1 me.2).map labKey)
          | _ => false)
      | _ => false)
  | _ => false

theorem syncLabs_added_zero (em : PyDict) (ns : List Nat)
    (h : ∀ n ∈ ns, dcontains em (labKey n) = true) :
    (syncLabs (.vdict em) ns).2 = 0 := by
  induction ns with
  | nil => rfl
  | cons n rest ih =>
    have hn := h n (List.mem_cons_self n rest)
    have hrest := ih (fun m hm => h m (List.mem_cons_of_mem n hm))
    simp [syncLabs, hn, hrest]

theorem syncModules_added_zero (cd : PyDict) (mods : ModuleStructure)
    (h : ∀ me ∈ mods, ∃ md, dget? cd me.1 = some (.vdict md) ∧
          ∀ i ∈ List.range' 1 me.2, dcontains md (labKey i) = true) :
    (syncModules (.vdict cd) mods).2 = 0 := by
  induction mods with
  | nil => rfl
  | cons me rest ih =>
    obtain ⟨md, hget, hlabs⟩ := h me (List.mem_cons_self me rest)
    have hrest := ih (fun me' hm => h me' (List.mem_cons_of_mem me hm))
    obtain ⟨m, n⟩ := me
    have hem : moduleOfCourse (.vdict cd) m = .vdict md := by
      simp [moduleOfCourse, dget, hget]
    simp only [syncModules, hem]
    simp [syncLabs_added_zero md _ hlabs, hrest]

theorem syncCourses_added_zero (gd : PyDict) (cms : CourseStructure)
    (h : ∀ ce ∈ cms, ∃ cd, dget? gd ce.1 = some (.vdict cd) ∧
          ∀ me ∈ ce.2, ∃ md, dget? cd me.1 = some (.vdict md) ∧
            ∀ i ∈ List.range' 1 me.2, dcontains md (labKey i) = true) :
    (syncCourses gd cms).2 = 0 := by
  induction cms with
  | nil => rfl
  | cons ce rest ih =>
    obtain ⟨cd, hget, hmods⟩ := h ce (List.mem_cons_self ce rest)
    have hrest := ih (fun ce' hm => h ce' (List.mem_cons_of_mem ce hm))
    obtain ⟨c, mods⟩ := ce
    simp only [syncCourses, dget, hget, Option.getD_some]
    simp [syncModules_added_zero cd _ hmods, hrest]

theorem removedForCourse_zero (cms : CourseStructure) (full : PyDict) (c : String)
    (hc : (cms.any fun p => p.1 == c) = true)
    (hmods : ∀ ecd, dget full c (.vdict []) = .vdict ecd →
      ∀ m ∈ keysOf ecd, ((structGet cms c).any fun p => p.1 == m) = true) :
    removedForCourse cms full c = 0 := by
  rw [removedForCourse, hc]
  simp only [Bool.not_true, Bool.false_eq_true, if_false]
  rcases hd : dget full c (.vdict []) with _ | _ | _ | _ | ecd
  · rfl
  · rfl
  · rfl
  · rfl
  · rw [List.countP_eq_zero]
    intro m hm
    have := hmods ecd hd m hm
    simp [this]

theorem removedCount_zero (cms : CourseStructure) (full : PyDict) (entries : PyDict)
    (h : ∀ e ∈ entries, (cms.any fun p => p.1 == e.1) = true ∧
          (∀ ecd, dget full e.1 (.vdict []) = .vdict ecd →
            ∀ m ∈ keysOf ecd, ((structGet cms e.1).any fun p => p.1 == m) = true)) :
    removedCount cms full entries = 0 := by
  induction entries with
  | nil => rfl
  | cons e rest ih =>
    obtain ⟨hc, hmods⟩ := h e (List.mem_cons_self e rest)
    have hrest := ih (fun e' hm => h e' (List.mem_cons_of_mem e hm))
    obtain ⟨c, v⟩ := e
    rw [removedCount, removedForCourse_zero cms full c hc hmods, hrest]

theorem structGet_of_find? {cms : CourseStructure} {c : String} {ce : String × ModuleStructure}
    (hf : (cms.find? fun e => e.1 == c) = some ce) : structGet cms c = ce.2 := by
  simp [structGet, hf]

/-- C1: for every course/module structure and every student whose stored
`assignmentGrades` is already congruent with it, the per-student body of
`sync_assignment_fields_to_lab_count` reports zero `added`, zero
`removed`, and a cleared `updated` flag — and the code issues the
Firestore write for a student only under `if updated:`, so the stored
value is left unchanged. -/
theorem sync_assignment_fields_idempotent (cms : CourseStructure) (g : PyVal)
    (h : congruentB cms g = true) :
    (sync_student_assignment_grades cms g).added = 0 ∧
      (sync_student_assignment_grades cms g).removed = 0 ∧
      (sync_student_assignment_grades cms g).updated = false := by
  cases g with
  | vnone => exact absurd h (by simp [congruentB])
  | vbool b => exact absurd h (by simp [congruentB])
  | vint n => exact absurd h (by simp [congruentB])
  | vstr s => exact absurd h (by simp [congruentB])
  | vdict gd =>
    simp only [congruentB, Bool.and_eq_true, decide_eq_true_eq] at h
    obtain ⟨⟨hnodup, hsame⟩, hall⟩ := h
    rw [List.all_eq_true] at hall
    -- For each course of the structure, extract the congruent stored course.
    have hcourse : ∀ ce ∈ cms, ∃ cd, dget? gd ce.1 = some (.vdict cd) ∧
        (∀ k, k ∈ keysOf cd ↔ k ∈ keysOf ce.2) ∧
        ∀ me ∈ ce.2, ∃ md, dget? cd me.1 = some (.vdict md) ∧
          ∀ k, k ∈ keysOf md ↔ k ∈ (List.range' 1 me.2).map labKey := by
      intro ce hce
      have hc := hall ce hce
      rcases hg : dget? gd ce.1 with _ | v
      · rw [hg] at hc; exact absurd hc (by simp)
      rcases v with _ | b | n | s | cd
      all_goals rw [hg] at hc
      · exact absurd hc (by simp)
      · exact absurd hc (by simp)
      · exact absurd hc (by simp)
      · exact absurd hc (by simp)
      simp only [Bool.and_eq_true, decide_eq_true_eq] at hc
      obtain ⟨⟨_, hsamecd⟩, hmodsall⟩ := hc
      rw [List.all_eq_true] at hmodsall
      refine ⟨cd, rfl, (sameKeySet_iff _ _).mp hsamecd, ?_⟩
      intro me hme
      have hm := hmodsall me hme
      rcases hgm : dget? cd me.1 with _ | w
      · rw [hgm] at hm; exact absurd hm (by simp)
      rcases w with _ | b | n | s | md
      all_goals rw [hgm] at hm
      · exact absurd hm (by simp)
      · exact absurd hm (by simp)
      · exact absurd hm (by simp)
      · exact absurd hm (by simp)
      simp only [Bool.and_eq_true, decide_eq_true_eq] at hm
      exact ⟨md, rfl, (sameKeySet_iff _ _).mp hm.2⟩
    have hadded : (syncCourses gd cms).2 = 0 := by
      apply syncCourses_added_zero
      intro ce hce
      obtain ⟨cd, hg, _, hmods⟩ := hcourse ce hce
      refine ⟨cd, hg, ?_⟩
      intro me hme
      obtain ⟨md, hgm, hkeys⟩ := hmods me hme
      refine ⟨md, hgm, ?_⟩
      intro i hi
      rw [dcontains_iff]
      exact (hkeys (labKey i)).mpr (List.mem_map_of_mem labKey hi)
    have hremoved : removedCount cms gd gd = 0 := by
      apply removedCount_zero
      intro e he
      have hkmem : e.1 ∈ keysOf gd := List.mem_map_of_mem Prod.fst he
      have hkcms : e.1 ∈ keysOf cms := ((sameKeySet_iff _ _).mp hsame e.1).mp hkmem
      constructor
      · exact (any_fst_beq_iff cms e.1).mpr hkcms
      · intro ecd hd m hm
        -- the course exists in the structure; find its module list
        have hfind := (mem_keysOf_iff_find?_isSome cms e.1).mp hkcms
        rw [Option.isSome_iff_exists] at hfind
        obtain ⟨ce, hf⟩ := hfind
        have hcemem := List.mem_of_find?_eq_some hf
        have hce1 : ce.1 = e.1 := by
          have := List.find?_some hf
          simpa using this
        obtain ⟨cd, hg, hsamecd, _⟩ := hcourse ce hcemem
        rw [hce1] at hg
        have hecd : ecd = cd := by
          rw [dget, hg] at hd
          simpa using hd.symm
        subst hecd
        have hmods : m ∈ keysOf ce.2 := (hsamecd m).mp hm
        rw [structGet_of_find? hf]
        exact (any_fst_beq_iff ce.2 m).mpr hmods
    refine ⟨?_, ?_, ?_⟩
    all_goals simp [sync_student_assignment_grades, hadded, hremoved]

/-- Witness for C1 at a concrete structure and congruent student. -/
theorem sync_assignment_fields_idempotent_witness :
    congruentB [("c1", [("m1", 2)])]
        (.vdict [("c1", .vdict [("m1", .vdict [("lab1", .vstr "A"), ("lab2", .vstr "")])])]) = true ∧
      (sync_student_assignment_grades [("c1", [("m1", 2)])]
        (.vdict [("c1", .vdict [("m1", .vdict [("lab1", .vstr "A"), ("lab2", .vstr "")])])])).added = 0 ∧
      (sync_student_assignment_grades [("c1", [("m1", 2)])]
        (.vdict [("c1", .vdict [("m1", .vdict [("lab1", .vstr "A"), ("lab2", .vstr "")])])])).removed = 0 ∧
      (sync_student_assignment_grades [("c1", [("m1", 2)])]
        (.vdict [("c1", .vdict [("m1", .vdict [("lab1", .vstr "A"), ("lab2", .vstr "")])])])).updated = false :=
  ⟨by decide, sync_assignment_fields_idempotent _ _ (by decide)⟩

/-- C3: when the structure shrinks from `{c1: {m1: 3}}` to `{c1: {m1: 2}}`
and the student has grades for `lab1..lab3`, the migrator's loop body
builds the truncated structure but reports `removed = 0` and leaves the
`updated` flag cleared — so no write is issued and the stored grades keep
`lab3`, contrary to the documented scenario (`removed = 1`, structure
rewritten): the removal scan only checks course and module keys, never
lab keys beyond the new lab count. -/
theorem sync_shrink_scenario_eval :
    sync_student_assignment_grades [("c1", [("m1", 2)])]
        (.vdict [("c1", .vdict [("m1", .vdict
          [("lab1", .vstr "A"), ("lab2", .vstr "B"), ("lab3", .vstr "C")])])]) =
      { updatedGrades := [("c1", .vdict [("m1", .vdict [("lab1", .vstr "A"), ("lab2", .vstr "B")])])],
        added := 0, removed := 0, updated := false } := rfl

/-!
## Metrics calculator
(`calculate_student_metrics`, backend/students/student_helpers.py)
-/

/-- Python `a or b` (first truthy operand, else the last). -/
def pyOr (a b : PyVal) : PyVal := if pyTruthy a then a else b

/-- `v.lower()`.  The pipeline only calls it on strings (a non-string
would raise `TypeError` in Python); rendered as `""` otherwise. -/
def pyLower : PyVal → String
  | .vstr s => strLower s
  | _ => ""

/-- `get_student_resume_link`: the `or`-chain over the resume field name
variants, falling back to `''`. -/
def get_student_resume_link (student : PyDict) : PyVal :=
  let r :=
    pyOr (dget student "Resume Link" (.vstr ""))
      (pyOr (dget student "Resume" (.vstr ""))
        (pyOr (dget student "Upload your Resume / CV (PDF preferred)" (.vstr ""))
          (dget student "Upload your Resume / CV (PDF preferred) " (.vstr ""))))
  pyOr r (.vstr "")

/-- `has_resume`: falsy → `False`; else strip, and check the result is
non-empty and not the literal `"n/a"` (case-insensitive).  (A truthy
non-string would raise `TypeError` at `.strip()` in Python; the pipeline
only ever passes strings.) -/
def has_resume (resume_link : PyVal) : Bool :=
  if !pyTruthy resume_link then false
  else
    match resume_link with
    | .vstr s =>
      let t := strStrip s
      (strLower t != "n/a") && decide (0 < t.data.length)
    | _ => false

/-- Round half to even on the integers, as Python's `round` does on exact
values. -/
def roundHalfEven (q : ℚ) : ℤ :=
  if q - ⌊q⌋ < 1 / 2 then ⌊q⌋
  else if 1 / 2 < q - ⌊q⌋ then ⌊q⌋ + 1
  else if ⌊q⌋ % 2 = 0 then ⌊q⌋ else ⌊q⌋ + 1

/-- Python `round(q, 2)`. -/
def pyRound2 (q : ℚ) : ℚ := (roundHalfEven (q * 100) : ℚ) / 100

theorem roundHalfEven_nonneg {q : ℚ} (h : 0 ≤ q) : 0 ≤ roundHalfEven q := by
  have hn : (0 : ℤ) ≤ ⌊q⌋ := Int.floor_nonneg.mpr h
  unfold roundHalfEven
  split
  · exact hn
  split
  · omega
  split
  · exact hn
  · omega

theorem roundHalfEven_le {q : ℚ} {B : ℤ} (h : q ≤ (B : ℚ)) : roundHalfEven q ≤ B := by
  have hfl : ⌊q⌋ ≤ B := by
    calc ⌊q⌋ ≤ ⌊(B : ℚ)⌋ := Int.floor_le_floor h
    _ = B := Int.floor_intCast B
  unfold roundHalfEven
  split
  · exact hfl
  · -- `q - ⌊q⌋ ≥ 1/2`, so `⌊q⌋ < B` and `⌊q⌋ + 1 ≤ B`.
    rename_i hhalf
    push_neg at hhalf
    have hlt : (⌊q⌋ : ℚ) < B := by
      have h1 : (⌊q⌋ : ℚ) + 1 / 2 ≤ q := by linarith
      linarith
    have : ⌊q⌋ < B := by exact_mod_cast hlt
    split
    · omega
    split
    · omega
    · omega

/-- Output record of `calculate_student_metrics`. -/
structure StudentMetrics where
  total_students : Nat
  paid_count : Nat
  unpaid_count : Nat
  has_resume_count : Nat
  onboarding_percentage : ℚ
  survey_filled_count : Nat
  survey_not_filled_count : Nat
deriving Repr

/-- `calculate_student_metrics`: the accumulation loop over the student
list is expressed with `countP` (one pass, one increment per matching
student, exactly as the Python counters). -/
def calculate_student_metrics (students : List PyDict) : StudentMetrics :=
  let total := students.length
  let paid := students.countP fun s => pyLower (dget s "Payment Status" (.vstr "")) == "paid"
  let resume := students.countP fun s => has_resume (get_student_resume_link s)
  let survey := students.countP fun s => pyTruthy (dget s "Has Survey Response" .vnone)
  let pct : ℚ := if 0 < total then (resume : ℚ) / (total : ℚ) * 100 else 0
  { total_students := total
    paid_count := paid
    unpaid_count := total - paid
    has_resume_count := resume
    onboarding_percentage := pyRound2 pct
    survey_filled_count := survey
    survey_not_filled_count := total - survey }

/-- C6: for every input list, `paid_count + unpaid_count` equals
`total_students`, and the onboarding percentage (has-resume over total,
times 100, rounded to 2 decimals, `0` for an empty list) lies between 0
and 100. -/
theorem calculate_student_metrics_consistent (students : List PyDict) :
    (calculate_student_metrics students).paid_count
        + (calculate_student_metrics students).unpaid_count
      = (calculate_student_metrics students).total_students ∧
    0 ≤ (calculate_student_metrics students).onboarding_percentage ∧
    (calculate_student_metrics students).onboarding_percentage ≤ 100 := by
  have hpaid : (students.countP fun s =>
      pyLower (dget s "Payment Status" (.vstr "")) == "paid") ≤ students.length :=
    List.countP_le_length _
  have hresume : (students.countP fun s => has_resume (get_student_resume_link s))
      ≤ students.length := List.countP_le_length _
  set t := students.length with ht
  set r := students.countP fun s => has_resume (get_student_resume_link s) with hr
  have hq : 0 ≤ (if 0 < t then (r : ℚ) / (t : ℚ) * 100 else 0) ∧
      (if 0 < t then (r : ℚ) / (t : ℚ) * 100 else 0) ≤ 100 := by
    split
    · rename_i htp
      have htq : (0 : ℚ) < (t : ℚ) := by exact_mod_cast htp
      constructor
      · positivity
      · have hdiv : (r : ℚ) / (t : ℚ) ≤ 1 := by
          rw [div_le_one htq]
          exact_mod_cast hresume
        nlinarith
    · norm_num
  constructor
  · simp only [calculate_student_metrics]
    omega
  constructor
  · simp only [calculate_student_metrics, pyRound2]
    have h0 : (0 : ℤ) ≤ roundHalfEven ((if 0 < t then (r : ℚ) / (t : ℚ) * 100 else 0) * 100) :=
      roundHalfEven_nonneg (by nlinarith [hq.1])
    have : (0 : ℚ) ≤ (roundHalfEven ((if 0 < t then (r : ℚ) / (t : ℚ) * 100 else 0) * 100) : ℚ) := by
      exact_mod_cast h0
    positivity
  · simp only [calculate_student_metrics, pyRound2]
    have hB : roundHalfEven ((if 0 < t then (r : ℚ) / (t : ℚ) * 100 else 0) * 100)
        ≤ (10000 : ℤ) := by
      apply roundHalfEven_le
      push_cast
      nlinarith [hq.2]
    have hBq : (roundHalfEven ((if 0 < t then (r : ℚ) / (t : ℚ) * 100 else 0) * 100) : ℚ)
        ≤ 10000 := by exact_mod_cast hB
    linarith

/-!
## Deep merge of assignment grades
(`_deep_merge_assignment_grades` and the `assignmentGrades` branch of
`update_user_admin_data`, backend/firestore/admin_data.py)

The Python function mutates a shallow copy of `existing`; we compute the
same resulting value functionally.  Statements that raise in Python
(`in` on a non-iterable, item assignment on a non-dict) are modelled by
`Except.error`.
-/

/-- Python `needle in container`: key test on a dict, substring test on a
string, `TypeError` otherwise. -/
def pyIn (needle : String) (container : PyVal) : Except String Bool :=
  match container with
  | .vdict d => .ok (dcontains d needle)
  | .vstr s => .ok (decide (needle.toList <:+: s.toList))
  | _ => .error "TypeError: argument is not iterable"

/-- `d[c][m] = v` (raises unless `d[c]` is a dict). -/
def dsetPath2 (d : PyDict) (c m : String) (v : PyVal) : Except String PyDict :=
  match dget? d c with
  | some (.vdict cd) => .ok (dset d c (.vdict (dset cd m v)))
  | some _ => .error "TypeError: object does not support item assignment"
  | none => .error "KeyError"

/-- `d[c][m][l] = v` (raises unless `d[c]` and `d[c][m]` are dicts). -/
def dsetPath3 (d : PyDict) (c m l : String) (v : PyVal) : Except String PyDict :=
  match dget? d c with
  | some (.vdict cd) =>
    match dget? cd m with
    | some (.vdict md) => .ok (dset d c (.vdict (dset cd m (.vdict (dset md l v)))))
    | some _ => .error "TypeError: object does not support item assignment"
    | none => .error "KeyError"
  | some _ => .error "TypeError: object is not subscriptable"
  | none => .error "KeyError"

/-- The `for lab_key, grade_value in labs.items()` loop. -/
def deepMergeLabs (result : PyDict) (c m : String) : List (String × PyVal) → Except String PyDict
  | [] => .ok result
  | (l, v) :: rest => do
    let r ← dsetPath3 result c m l v
    deepMergeLabs r c m rest

/-- Python `d[k]` (raises `KeyError` when absent). -/
def pyGetItem (d : PyDict) (k : String) : Except String PyVal :=
  match dget? d k with
  | some v => .ok v
  | none => .error "KeyError"

/-- `if module_id not in result[course_id]: result[course_id][module_id]
= {}` — the conditional init, `mem` being the `in` test's result. -/
def ensureModuleKey (result : PyDict) (c m : String) (mem : Bool) : Except String PyDict :=
  if !mem then dsetPath2 result c m (.vdict []) else pure result

/-- `if isinstance(labs, dict):` run the lab loop, else no-op. -/
def deepMergeLabsIfDict (r1 : PyDict) (c m : String) (labs : PyVal) : Except String PyDict :=
  match labs with
  | .vdict ls => deepMergeLabs r1 c m ls
  | _ => pure r1

/-- The `for module_id, labs in modules.items()` loop. -/
def deepMergeModules (result : PyDict) (c : String) : List (String × PyVal) → Except String PyDict
  | [] => .ok result
  | (m, labs) :: rest => do
    let rc ← pyGetItem result c
    let mem ← pyIn m rc
    let r1 ← ensureModuleKey result c m mem
    let r2 ← deepMergeLabsIfDict r1 c m labs
    deepMergeModules r2 c rest

/-- `if isinstance(modules, dict):` run the module loop, else no-op. -/
def deepMergeModulesIfDict (r0 : PyDict) (c : String) (modules : PyVal) : Except String PyDict :=
  match modules with
  | .vdict mods => deepMergeModules r0 c mods
  | _ => pure r0

/-- The `for course_id, modules in new.items()` loop; the
`if course_id not in result: result[course_id] = {}` init is inlined. -/
def deepMergeCourses (result : PyDict) : List (String × PyVal) → Except String PyDict
  | [] => .ok result
  | (c, modules) :: rest => do
    let r1 ← deepMergeModulesIfDict
      (if !dcontains result c then dset result c (.vdict []) else result) c modules
    deepMergeCourses r1 rest

/-- `_deep_merge_assignment_grades(existing, new)`: start from `existing`
(when it is a dict, else `{}`), return it unchanged when `new` is not a
dict, else run the nested merge loops. -/
def _deep_merge_assignment_grades (existing new_ : PyVal) : Except String PyDict :=
  let result : PyDict :=
    match existing with
    | .vdict d => d
    | _ => []
  match new_ with
  | .vdict entries => deepMergeCourses result entries
  | _ => .ok result

/-- The `assignmentGrades` branch of `update_user_admin_data` for an
existing document: a dict update is deep-merged into the stored dict
(replaced outright when the stored value is not a dict); a non-dict
update writes nothing, leaving the stored value. -/
def stored_assignment_grades_after_update (existingData : PyDict) (newGrades : PyVal) :
    Except String PyVal :=
  match newGrades with
  | .vdict _ =>
    match dget existingData "assignmentGrades" (.vdict []) with
    | .vdict d => do
      let m ← _deep_merge_assignment_grades (.vdict d) newGrades
      pure (.vdict m)
    | v => pure v
  | _ => pure (dget existingData "assignmentGrades" (.vdict []))

/-- Lookup of the (course, module, lab) path in a grades dictionary. -/
def pathGet3 (d : PyDict) (c m l : String) : Option PyVal :=
  match dget? d c with
  | some (.vdict cd) =>
    match dget? cd m with
    | some (.vdict md) => dget? md l
    | _ => none
  | _ => none

/-- Lookup of the (course, module, lab) path in a grades value. -/
def pathGetV (g : PyVal) (c m l : String) : Option PyVal :=
  match g with
  | .vdict d => pathGet3 d c m l
  | _ => none

/-- The value `new` supplies for path (c, m, l), when the merge loops
reach a lab write for that path: `new`, `new[c]` and `new[c][m]` must be
dicts and the lab key present. -/
def newOverwrite (new_ : PyVal) (c m l : String) : Option PyVal :=
  match new_ with
  | .vdict entries =>
    match dget? entries c with
    | some (.vdict mods) =>
      match dget? mods m with
      | some (.vdict ls) => dget? ls l
      | _ => none
    | _ => none
  | _ => none

mutual

/-- The value is a well-formed Python value: every dictionary inside it
has pairwise-distinct keys (true of every real Python dict). -/
def pyWF : PyVal → Bool
  | .vdict d => decide (keysOf d).Nodup && pyWFEntries d
  | _ => true

/-- All entry values are well-formed. -/
def pyWFEntries : List (String × PyVal) → Bool
  | [] => true
  | e :: t => pyWF e.2 && pyWFEntries t

end

theorem dget?_dset_same (d : PyDict) (k : String) (v : PyVal) :
    dget? (dset d k v) k = some v := by
  induction d with
  | nil => simp [dset, dget?]
  | cons e t ih =>
    obtain ⟨k', v'⟩ := e
    by_cases hk : k' = k
    · simp [dset, dget?, hk]
    · have h1 : (k' == k) = false := by simpa using hk
      simp only [dset, h1, Bool.false_eq_true, if_false]
      simp only [dget?, List.find?, h1] at ih ⊢
      exact ih

theorem dget?_dset_ne (d : PyDict) (k k' : String) (v : PyVal) (h : k' ≠ k) :
    dget? (dset d k v) k' = dget? d k' := by
  have hkk : (k == k') = false := by simpa using Ne.symm h
  induction d with
  | nil => simp [dset, dget?, List.find?, hkk]
  | cons e t ih =>
    obtain ⟨k1, v1⟩ := e
    by_cases hk : k1 = k
    · subst hk
      simp only [dset, beq_self_eq_true, if_true]
      simp [dget?, List.find?, hkk]
    · have h2 : (k1 == k) = false := by simpa using hk
      simp only [dset, h2, Bool.false_eq_true, if_false]
      by_cases hk1 : k1 = k'
      · simp [dget?, List.find?, hk1]
      · have h3 : (k1 == k') = false := by simpa using hk1
        simp only [dget?, List.find?, h3] at ih ⊢
        exact ih

theorem dcontains_of_dget? {d : PyDict} {k : String} {v : PyVal}
    (h : dget? d k = some v) : dcontains d k = true := by
  rw [dcontains_iff, mem_keysOf_iff_find?_isSome]
  rw [dget?] at h
  cases hf : d.find? fun e => e.1 == k
  · rw [hf] at h; simp at h
  · simp

theorem except_bind_ok {α β : Type} {x : Except String α} {f : α → Except String β} {b : β}
    (h : (x >>= f) = .ok b) : ∃ a, x = .ok a ∧ f a = .ok b := by
  cases x with
  | error e => simp [Bind.bind, Except.bind] at h
  | ok a => exact ⟨a, rfl, by simpa [Bind.bind, Except.bind] using h⟩

theorem pathGet3_dset_other_course (d : PyDict) (c c' m l : String) (x : PyVal)
    (h : c ≠ c') : pathGet3 (dset d c' x) c m l = pathGet3 d c m l := by
  simp [pathGet3, dget?_dset_ne d c' c x h]

theorem dsetPath2_ok_inv {d d' : PyDict} {c m : String} {x : PyVal}
    (h : dsetPath2 d c m x = .ok d') :
    ∃ cd, dget? d c = some (.vdict cd) ∧ d' = dset d c (.vdict (dset cd m x)) := by
  unfold dsetPath2 at h
  split at h
  · exact ⟨_, by assumption, by simpa using h.symm⟩
  · exact absurd h (by simp)
  · exact absurd h (by simp)

theorem dsetPath3_ok_inv {d d' : PyDict} {c m l : String} {v' : PyVal}
    (h : dsetPath3 d c m l v' = .ok d') :
    ∃ cd md, dget? d c = some (.vdict cd) ∧ dget? cd m = some (.vdict md) ∧
      d' = dset d c (.vdict (dset cd m (.vdict (dset md l v')))) := by
  unfold dsetPath3 at h
  split at h
  · split at h
    · exact ⟨_, _, by assumption, by assumption, by simpa using h.symm⟩
    · exact absurd h (by simp)
    · exact absurd h (by simp)
  · exact absurd h (by simp)
  · exact absurd h (by simp)

/-- Effect of `d[c'][m'] = x` on the lookup of path (c, m, l), when the
write does not hit the (c, m) prefix. -/
theorem dsetPath2_preserves {d d' : PyDict} {c' m' : String} {x : PyVal}
    (h : dsetPath2 d c' m' x = .ok d') (c m l : String)
    (hne : c ≠ c' ∨ (c = c' ∧ m ≠ m')) :
    pathGet3 d' c m l = pathGet3 d c m l := by
  obtain ⟨cd, hg, rfl⟩ := dsetPath2_ok_inv h
  rcases hne with hne | ⟨hc, hne⟩
  · exact pathGet3_dset_other_course _ _ _ _ _ _ hne
  · subst hc
    simp only [pathGet3, dget?_dset_same, hg]
    rw [dget?_dset_ne cd m' m x hne]

/-- Effect of `d[c'][m'][l'] = v'` on the lookup of path (c, m, l), when
the write does not hit that exact path. -/
theorem dsetPath3_preserves {d d' : PyDict} {c' m' l' : String} {v' : PyVal}
    (h : dsetPath3 d c' m' l' v' = .ok d') (c m l : String)
    (hne : c ≠ c' ∨ (c = c' ∧ m ≠ m') ∨ (c = c' ∧ m = m' ∧ l ≠ l')) :
    pathGet3 d' c m l = pathGet3 d c m l := by
  obtain ⟨cd, md, hg, hgm, rfl⟩ := dsetPath3_ok_inv h
  rcases hne with hne | ⟨hc, hne⟩ | ⟨hc, hm, hne⟩
  · exact pathGet3_dset_other_course _ _ _ _ _ _ hne
  · subst hc
    simp only [pathGet3, dget?_dset_same, hg]
    rw [dget?_dset_ne cd m' m _ hne]
  · subst hc; subst hm
    simp only [pathGet3, dget?_dset_same, hg, hgm]
    rw [dget?_dset_ne md l' l v' hne]

/-- After `d[c][m][l] = v'` hits the exact path, the lookup yields the
written value. -/
theorem dsetPath3_same {d d' : PyDict} {c m l : String} {v' : PyVal}
    (h : dsetPath3 d c m l v' = .ok d') : pathGet3 d' c m l = some v' := by
  obtain ⟨cd, md, hg, hgm, rfl⟩ := dsetPath3_ok_inv h
  simp [pathGet3, dget?_dset_same]

theorem dget?_eq_none_of_not_mem {d : PyDict} {k : String} (h : k ∉ keysOf d) :
    dget? d k = none := by
  rcases hf : List.find? (fun e => e.1 == k) d with _ | e
  · simp [dget?, hf]
  · exfalso
    apply h
    have hm := List.mem_of_find?_eq_some hf
    have he := List.find?_some hf
    rw [beq_iff_eq] at he
    exact he ▸ List.mem_map_of_mem Prod.fst hm

theorem pathGet3_some_inv {r : PyDict} {c m l : String} {w : PyVal}
    (h : pathGet3 r c m l = some w) :
    ∃ cd md, dget? r c = some (.vdict cd) ∧ dget? cd m = some (.vdict md) ∧
      dget? md l = some w := by
  unfold pathGet3 at h
  split at h
  · split at h
    · exact ⟨_, _, by assumption, by assumption, h⟩
    · exact absurd h (by simp)
  · exact absurd h (by simp)

theorem deepMergeLabs_preserves_other {r r' : PyDict} {c' m' : String}
    {ls : List (String × PyVal)} (h : deepMergeLabs r c' m' ls = .ok r')
    (c m l : String) (hne : c ≠ c' ∨ (c = c' ∧ m ≠ m')) :
    pathGet3 r' c m l = pathGet3 r c m l := by
  induction ls generalizing r with
  | nil =>
    simp only [deepMergeLabs, Except.ok.injEq] at h
    rw [h]
  | cons e rest ih =>
    obtain ⟨l1, v1⟩ := e
    rw [deepMergeLabs] at h
    obtain ⟨r1, hstep, hrest⟩ := except_bind_ok h
    have h1 := dsetPath3_preserves hstep c m l (by tauto)
    rw [ih hrest, h1]

theorem deepMergeLabs_tracks {r r' : PyDict} {c m : String} {ls : List (String × PyVal)}
    (h : deepMergeLabs r c m ls = .ok r') (l : String) {w : PyVal}
    (hnd : (keysOf ls).Nodup) (hw : pathGet3 r c m l = some w) :
    pathGet3 r' c m l = some ((dget? ls l).getD w) := by
  induction ls generalizing r w with
  | nil =>
    simp only [deepMergeLabs, Except.ok.injEq] at h
    subst h
    simpa [dget?] using hw
  | cons e rest ih =>
    obtain ⟨l1, v1⟩ := e
    rw [deepMergeLabs] at h
    obtain ⟨r1, hstep, hrest⟩ := except_bind_ok h
    simp only [keysOf, List.map_cons, List.nodup_cons] at hnd
    by_cases hl : l1 = l
    · subst hl
      have h1 : pathGet3 r1 c m l1 = some v1 := dsetPath3_same hstep
      have h2 := ih hrest hnd.2 h1
      have hnone : dget? rest l1 = none := dget?_eq_none_of_not_mem hnd.1
      rw [h2, hnone]
      simp [dget?, List.find?]
    · have h1 := dsetPath3_preserves hstep c m l
        (Or.inr (Or.inr ⟨rfl, rfl, fun hll => hl hll.symm⟩))
      rw [hw] at h1
      have h2 := ih hrest hnd.2 h1
      rw [h2]
      have hb : (l1 == l) = false := by simpa using hl
      simp [dget?, List.find?, hb]

theorem except_pure_ok {α : Type} {a b : α} (h : (pure a : Except String α) = .ok b) :
    a = b := by
  simpa [pure, Except.pure] using h

theorem pyWFEntries_mem {d : List (String × PyVal)} (h : pyWFEntries d = true)
    {e : String × PyVal} (he : e ∈ d) : pyWF e.2 = true := by
  induction d with
  | nil => cases he
  | cons x t ih =>
    rw [pyWFEntries, Bool.and_eq_true] at h
    rcases List.mem_cons.mp he with rfl | ht
    · exact h.1
    · exact ih h.2 ht

theorem ensureModuleKey_true {r r1 : PyDict} {c m : String}
    (h : ensureModuleKey r c m true = .ok r1) : r1 = r := by
  rw [ensureModuleKey] at h
  simp only [Bool.not_true, Bool.false_eq_true, if_false] at h
  exact (except_pure_ok h).symm

theorem deepMergeModules_preserves_other {r r' : PyDict} {c' : String}
    {mods : List (String × PyVal)} (h : deepMergeModules r c' mods = .ok r')
    (c m l : String) (hne : c ≠ c') :
    pathGet3 r' c m l = pathGet3 r c m l := by
  induction mods generalizing r with
  | nil =>
    simp only [deepMergeModules, Except.ok.injEq] at h
    rw [h]
  | cons e rest ih =>
    obtain ⟨m1, labs1⟩ := e
    rw [deepMergeModules] at h
    obtain ⟨rc, hrc, h⟩ := except_bind_ok h
    obtain ⟨mem, hmem, h⟩ := except_bind_ok h
    obtain ⟨r1, hr1, h⟩ := except_bind_ok h
    obtain ⟨r2, hr2, hrest⟩ := except_bind_ok h
    have h1 : pathGet3 r1 c m l = pathGet3 r c m l := by
      cases mem with
      | true => rw [ensureModuleKey_true hr1]
      | false =>
        rw [ensureModuleKey] at hr1
        simp only [Bool.not_false, if_true] at hr1
        exact dsetPath2_preserves hr1 c m l (Or.inl hne)
    have h2 : pathGet3 r2 c m l = pathGet3 r1 c m l := by
      cases labs1 with
      | vdict ls => exact deepMergeLabs_preserves_other hr2 c m l (Or.inl hne)
      | vnone => have h12 : r1 = r2 := except_pure_ok hr2; rw [h12]
      | vbool b => have h12 : r1 = r2 := except_pure_ok hr2; rw [h12]
      | vint n => have h12 : r1 = r2 := except_pure_ok hr2; rw [h12]
      | vstr s => have h12 : r1 = r2 := except_pure_ok hr2; rw [h12]
    rw [ih hrest, h2, h1]

theorem deepMergeModules_tracks {r r' : PyDict} {c : String} {mods : List (String × PyVal)}
    (h : deepMergeModules r c mods = .ok r') (m l : String) {w : PyVal}
    (hnd : (keysOf mods).Nodup) (hwf : pyWFEntries mods = true)
    (hw : pathGet3 r c m l = some w) :
    pathGet3 r' c m l = some (match dget? mods m with
      | some (.vdict ls) => (dget? ls l).getD w
      | _ => w) := by
  induction mods generalizing r w with
  | nil =>
    simp only [deepMergeModules, Except.ok.injEq] at h
    subst h
    simpa [dget?] using hw
  | cons e rest ih =>
    obtain ⟨m1, labs1⟩ := e
    rw [deepMergeModules] at h
    obtain ⟨rc, hrc, h⟩ := except_bind_ok h
    obtain ⟨mem, hmem, h⟩ := except_bind_ok h
    obtain ⟨r1, hr1, h⟩ := except_bind_ok h
    obtain ⟨r2, hr2, hrest⟩ := except_bind_ok h
    simp only [keysOf, List.map_cons, List.nodup_cons] at hnd
    rw [pyWFEntries, Bool.and_eq_true] at hwf
    obtain ⟨hwf1, hwfrest⟩ := hwf
    obtain ⟨cd, md, hg, hgm, hml⟩ := pathGet3_some_inv hw
    by_cases hm : m1 = m
    · subst hm
      have hrc' : rc = .vdict cd := by
        rw [pyGetItem, hg] at hrc
        simpa using hrc.symm
      subst hrc'
      have hmem' : mem = true := by
        rw [pyIn, dcontains_of_dget? hgm] at hmem
        simpa using hmem.symm
      subst hmem'
      have hr1' : r1 = r := ensureModuleKey_true hr1
      subst hr1'
      have hnone : dget? rest m1 = none := dget?_eq_none_of_not_mem hnd.1
      cases labs1 with
      | vdict ls =>
        have hls : (keysOf ls).Nodup := by
          rw [pyWF, Bool.and_eq_true] at hwf1
          exact of_decide_eq_true hwf1.1
        have htr := deepMergeLabs_tracks hr2 l hls hw
        have hfin := ih hrest hnd.2 hwfrest htr
        rw [hnone] at hfin
        rw [hfin]
        simp [dget?, List.find?]
      | vnone =>
        have hr2' : r1 = r2 := except_pure_ok hr2
        subst hr2'
        have hfin := ih hrest hnd.2 hwfrest hw
        rw [hnone] at hfin
        rw [hfin]
        simp [dget?, List.find?]
      | vbool b =>
        have hr2' : r1 = r2 := except_pure_ok hr2
        subst hr2'
        have hfin := ih hrest hnd.2 hwfrest hw
        rw [hnone] at hfin
        rw [hfin]
        simp [dget?, List.find?]
      | vint n =>
        have hr2' : r1 = r2 := except_pure_ok hr2
        subst hr2'
        have hfin := ih hrest hnd.2 hwfrest hw
        rw [hnone] at hfin
        rw [hfin]
        simp [dget?, List.find?]
      | vstr s =>
        have hr2' : r1 = r2 := except_pure_ok hr2
        subst hr2'
        have hfin := ih hrest hnd.2 hwfrest hw
        rw [hnone] at hfin
        rw [hfin]
        simp [dget?, List.find?]
    · have hmm : m ≠ m1 := fun hmm => hm hmm.symm
      have h1 : pathGet3 r1 c m l = some w := by
        cases mem with
        | true =>
          rw [ensureModuleKey_true hr1]
          exact hw
        | false =>
          rw [ensureModuleKey] at hr1
          simp only [Bool.not_false, if_true] at hr1
          rw [dsetPath2_preserves hr1 c m l (Or.inr ⟨rfl, hmm⟩)]
          exact hw
      have h2 : pathGet3 r2 c m l = some w := by
        cases labs1 with
        | vdict ls =>
          rw [deepMergeLabs_preserves_other hr2 c m l (Or.inr ⟨rfl, hmm⟩)]
          exact h1
        | vnone => have h12 : r1 = r2 := except_pure_ok hr2; rw [← h12]; exact h1
        | vbool b => have h12 : r1 = r2 := except_pure_ok hr2; rw [← h12]; exact h1
        | vint n => have h12 : r1 = r2 := except_pure_ok hr2; rw [← h12]; exact h1
        | vstr s => have h12 : r1 = r2 := except_pure_ok hr2; rw [← h12]; exact h1
      have hfin := ih hrest hnd.2 hwfrest h2
      rw [hfin]
      have hb : (m1 == m) = false := by simpa using hm
      simp [dget?, List.find?, hb]

theorem deepMergeCourses_tracks {r r' : PyDict} {entries : List (String × PyVal)}
    (h : deepMergeCourses r entries = .ok r') (c m l : String) {v : PyVal}
    (hnd : (keysOf entries).Nodup) (hwf : pyWFEntries entries = true)
    (hv : pathGet3 r c m l = some v) :
    pathGet3 r' c m l = some (match dget? entries c with
      | some (.vdict mods) =>
        match dget? mods m with
        | some (.vdict ls) => (dget? ls l).getD v
        | _ => v
      | _ => v) := by
  induction entries generalizing r v with
  | nil =>
    simp only [deepMergeCourses, Except.ok.injEq] at h
    subst h
    simpa [dget?] using hv
  | cons e rest ih =>
    obtain ⟨c1, modules1⟩ := e
    rw [deepMergeCourses] at h
    obtain ⟨r1, hr1, hrest⟩ := except_bind_ok h
    simp only [keysOf, List.map_cons, List.nodup_cons] at hnd
    rw [pyWFEntries, Bool.and_eq_true] at hwf
    obtain ⟨hwf1, hwfrest⟩ := hwf
    obtain ⟨cd, md, hg, hgm, hml⟩ := pathGet3_some_inv hv
    by_cases hc : c1 = c
    · subst hc
      have hcont : dcontains r c1 = true := dcontains_of_dget? hg
      rw [hcont] at hr1
      simp only [Bool.not_true, Bool.false_eq_true, if_false] at hr1
      have hnone : dget? rest c1 = none := dget?_eq_none_of_not_mem hnd.1
      cases modules1 with
      | vdict mods =>
        rw [pyWF, Bool.and_eq_true] at hwf1
        have htr := deepMergeModules_tracks hr1 m l (of_decide_eq_true hwf1.1) hwf1.2 hv
        have hfin := ih hrest hnd.2 hwfrest htr
        rw [hnone] at hfin
        rw [hfin]
        simp [dget?, List.find?]
      | vnone =>
        have h11 : r = r1 := except_pure_ok hr1
        subst h11
        have hfin := ih hrest hnd.2 hwfrest hv
        rw [hnone] at hfin
        rw [hfin]
        simp [dget?, List.find?]
      | vbool b =>
        have h11 : r = r1 := except_pure_ok hr1
        subst h11
        have hfin := ih hrest hnd.2 hwfrest hv
        rw [hnone] at hfin
        rw [hfin]
        simp [dget?, List.find?]
      | vint n =>
        have h11 : r = r1 := except_pure_ok hr1
        subst h11
        have hfin := ih hrest hnd.2 hwfrest hv
        rw [hnone] at hfin
        rw [hfin]
        simp [dget?, List.find?]
      | vstr str =>
        have h11 : r = r1 := except_pure_ok hr1
        subst h11
        have hfin := ih hrest hnd.2 hwfrest hv
        rw [hnone] at hfin
        rw [hfin]
        simp [dget?, List.find?]
    · have hcc : c ≠ c1 := fun hcc => hc hcc.symm
      have hr0p : pathGet3 (if !dcontains r c1 then dset r c1 (.vdict []) else r) c m l
          = some v := by
        split
        · rw [pathGet3_dset_other_course r c c1 m l _ hcc]
          exact hv
        · exact hv
      have h1 : pathGet3 r1 c m l = some v := by
        cases modules1 with
        | vdict mods =>
          rw [deepMergeModules_preserves_other hr1 c m l hcc]
          exact hr0p
        | vnone => have h11 := except_pure_ok hr1; rw [← h11]; exact hr0p
        | vbool b => have h11 := except_pure_ok hr1; rw [← h11]; exact hr0p
        | vint n => have h11 := except_pure_ok hr1; rw [← h11]; exact hr0p
        | vstr str => have h11 := except_pure_ok hr1; rw [← h11]; exact hr0p
      have hfin := ih hrest hnd.2 hwfrest h1
      rw [hfin]
      have hb : (c1 == c) = false := by simpa using hc
      simp [dget?, List.find?, hb]

/-- Core preservation property of `_deep_merge_assignment_grades`: every
(course, module, lab) path of `existing` is still present in the merged
result, with its value replaced exactly when `new` supplies a value at
the same path. -/
theorem deep_merge_preserves_path {existing new_ : PyVal} {res : PyDict}
    {c m l : String} {v : PyVal} (hwf : pyWF new_ = true)
    (hok : _deep_merge_assignment_grades existing new_ = .ok res)
    (hpath : pathGetV existing c m l = some v) :
    pathGet3 res c m l = some ((newOverwrite new_ c m l).getD v) := by
  cases existing with
  | vnone => simp [pathGetV] at hpath
  | vbool b => simp [pathGetV] at hpath
  | vint n => simp [pathGetV] at hpath
  | vstr s => simp [pathGetV] at hpath
  | vdict d =>
    rw [pathGetV] at hpath
    cases new_ with
    | vdict entries =>
      rw [pyWF, Bool.and_eq_true] at hwf
      have hok' : deepMergeCourses d entries = .ok res := hok
      have htr := deepMergeCourses_tracks hok' c m l (of_decide_eq_true hwf.1) hwf.2 hpath
      rw [htr, newOverwrite]
      rcases h1 : dget? entries c with _ | w
      · simp
      rcases w with _ | b | n | s | mods
      · simp
      · simp
      · simp
      · simp
      rcases h2 : dget? mods m with _ | w2
      · simp [h2]
      rcases w2 with _ | b | n | s | ls
      · simp [h2]
      · simp [h2]
      · simp [h2]
      · simp [h2]
      · simp [h2]
    | vnone =>
      have hres : d = res := by simpa [_deep_merge_assignment_grades] using hok
      subst hres
      simpa [newOverwrite] using hpath
    | vbool b =>
      have hres : d = res := by simpa [_deep_merge_assignment_grades] using hok
      subst hres
      simpa [newOverwrite] using hpath
    | vint n =>
      have hres : d = res := by simpa [_deep_merge_assignment_grades] using hok
      subst hres
      simpa [newOverwrite] using hpath
    | vstr s =>
      have hres : d = res := by simpa [_deep_merge_assignment_grades] using hok
      subst hres
      simpa [newOverwrite] using hpath

/-- C10: `_deep_merge_assignment_grades(existing, new)` keeps every
(course, module, lab) path of `existing`, overwriting its value exactly
when `new` supplies the same path; consequently the `assignmentGrades`
branch of `update_user_admin_data` (which stores the merge result) never
deletes an existing grade path — it only adds or overwrites. -/
theorem deep_merge_never_deletes :
    (∀ (existing new_ : PyVal) (res : PyDict) (c m l : String) (v : PyVal),
        pyWF new_ = true →
        _deep_merge_assignment_grades existing new_ = .ok res →
        pathGetV existing c m l = some v →
        pathGet3 res c m l = some ((newOverwrite new_ c m l).getD v)) ∧
    (∀ (existingData : PyDict) (newGrades st : PyVal) (c m l : String) (v : PyVal),
        pyWF newGrades = true →
        stored_assignment_grades_after_update existingData newGrades = .ok st →
        pathGetV (dget existingData "assignmentGrades" (.vdict [])) c m l = some v →
        pathGetV st c m l = some ((newOverwrite newGrades c m l).getD v)) := by
  constructor
  · intro existing new_ res c m l v hwf hok hpath
    exact deep_merge_preserves_path hwf hok hpath
  · intro data g st c m l v hwf hok hpath
    rcases hd : dget data "assignmentGrades" (.vdict []) with _ | b | n | s | d0
    all_goals rw [hd] at hpath
    · simp [pathGetV] at hpath
    · simp [pathGetV] at hpath
    · simp [pathGetV] at hpath
    · simp [pathGetV] at hpath
    cases g with
    | vdict entries =>
      have hok2 : stored_assignment_grades_after_update data (.vdict entries)
          = (do
              let mg ← _deep_merge_assignment_grades (.vdict d0) (.vdict entries)
              pure (.vdict mg)) := by
        unfold stored_assignment_grades_after_update
        rw [hd]
      rw [hok2] at hok
      obtain ⟨merged, hm, hpure⟩ := except_bind_ok hok
      have hst : PyVal.vdict merged = st := except_pure_ok hpure
      subst hst
      rw [pathGetV]
      exact deep_merge_preserves_path hwf hm hpath
    | vnone =>
      have hst : dget data "assignmentGrades" (.vdict []) = st := except_pure_ok hok
      rw [← hst, hd, pathGetV]
      simpa [newOverwrite] using hpath
    | vbool b =>
      have hst : dget data "assignmentGrades" (.vdict []) = st := except_pure_ok hok
      rw [← hst, hd, pathGetV]
      simpa [newOverwrite] using hpath
    | vint n =>
      have hst : dget data "assignmentGrades" (.vdict []) = st := except_pure_ok hok
      rw [← hst, hd, pathGetV]
      simpa [newOverwrite] using hpath
    | vstr s =>
      have hst : dget data "assignmentGrades" (.vdict []) = st := except_pure_ok hok
      rw [← hst, hd, pathGetV]
      simpa [newOverwrite] using hpath

/-- Witness for C10: merging `{c: {m: {lab2: "B"}}}` into
`{c: {m: {lab1: "A"}}}` keeps `lab1 = "A"`. -/
theorem deep_merge_never_deletes_witness :
    pyWF (.vdict [("c", .vdict [("m", .vdict [("lab2", .vstr "B")])])]) = true ∧
    _deep_merge_assignment_grades
        (.vdict [("c", .vdict [("m", .vdict [("lab1", .vstr "A")])])])
        (.vdict [("c", .vdict [("m", .vdict [("lab2", .vstr "B")])])])
      = .ok [("c", .vdict [("m", .vdict [("lab1", .vstr "A"), ("lab2", .vstr "B")])])] ∧
    pathGetV (.vdict [("c", .vdict [("m", .vdict [("lab1", .vstr "A")])])])
        "c" "m" "lab1" = some (.vstr "A") ∧
    pathGet3 [("c", .vdict [("m", .vdict [("lab1", .vstr "A"), ("lab2", .vstr "B")])])]
        "c" "m" "lab1"
      = some ((newOverwrite (.vdict [("c", .vdict [("m", .vdict [("lab2", .vstr "B")])])])
          "c" "m" "lab1").getD (.vstr "A")) :=
  ⟨by decide, rfl, rfl,
    deep_merge_never_deletes.1
      (.vdict [("c", .vdict [("m", .vdict [("lab1", .vstr "A")])])])
      (.vdict [("c", .vdict [("m", .vdict [("lab2", .vstr "B")])])])
      [("c", .vdict [("m", .vdict [("lab1", .vstr "A"), ("lab2", .vstr "B")])])]
      "c" "m" "lab1" (.vstr "A") (by decide) rfl rfl⟩

/-!
## Attendance marker
(`bulk_mark_attendance`, backend/sheets/google_sheets_manager.py)

The method reads the student list, builds one update per student whose
stored attendance for the class differs from the desired presence, and
bulk-writes them to the document store.  We model the student store as
the list of student rows the method reads; the bulk write
(`bulk_update_admin_logs` → `bulk_update_admin_students` →
`update_user_admin_data`, which merges the submitted attendance dict
into the stored one for the student with that email, normalised) plus
the subsequent re-read are modelled by the `backend` parameter; the
faithful store backend is `firestoreAttendanceBackend`.  The per-class
`threading.Lock` map is modelled as the list of class ids whose lock is
currently held; `acquire(blocking=False)` fails exactly when the id is
in that list, and the `finally: class_lock.release()` is the final
`erase`. -/

/-- `email.lower().strip()` (emails in the pipeline are strings; a
truthy non-string would raise `TypeError` in Python). -/
def pyNormEmail : PyVal → String
  | .vstr s => strStrip (strLower s)
  | _ => ""

/-- `{email.lower().strip() for email in present_emails if email}` —
as a list, used only for membership. -/
def presentSet (presentEmails : List String) : List String :=
  (presentEmails.filter (fun e => e ≠ "")).map (fun e => strStrip (strLower e))

/-- `attendance if isinstance(attendance, dict) else {}`. -/
def attDict : PyVal → PyDict
  | .vdict d => d
  | _ => []

/-- One entry of the `updates` list: `{'email': email, 'Attendance':
attendance}` (raw email, attendance dict with the class id set). -/
structure AttUpdate where
  email : PyVal
  attendance : PyDict
deriving Repr

/-- The per-student loop of `bulk_mark_attendance`: skip students whose
email is falsy; skip (counting `skipped`) those whose stored value for
the class already equals the desired presence; emit an update for the
rest. -/
def buildAttendanceUpdates (students : List PyDict) (classId : String)
    (presentEmails : List String) : List AttUpdate × Nat :=
  match students with
  | [] => ([], 0)
  | s :: rest =>
    let (us, sk) := buildAttendanceUpdates rest classId presentEmails
    let email := dget s "Email Address" (.vstr "")
    if !pyTruthy email then (us, sk)
    else
      let en := pyNormEmail email
      let att := attDict (dget s "Attendance" .vnone)
      let current := dget att classId (.vbool false)
      let desired := (presentSet presentEmails).contains en
      if PyVal.beq current (.vbool desired) then (us, sk + 1)
      else ({ email := email, attendance := dset att classId (.vbool desired) } :: us, sk)

/-- Python `d.update(new)`. -/
def dictUpdate (d new : PyDict) : PyDict :=
  new.foldl (fun acc e => dset acc e.1 e.2) d

/-- Store effect of one update: for the student row with the same
normalised email, merge the submitted attendance dict into the stored
one (`update_user_admin_data`'s attendance merge). -/
def applyAttUpdate (row : PyDict) (u : AttUpdate) : PyDict :=
  if pyNormEmail (dget row "Email Address" (.vstr "")) == pyNormEmail u.email then
    dset row "Attendance"
      (.vdict (dictUpdate (attDict (dget row "Attendance" .vnone)) u.attendance))
  else row

/-- Store effect of the whole bulk write. -/
def applyAttUpdates (store : List PyDict) (us : List AttUpdate) : List PyDict :=
  store.map (fun row => us.foldl applyAttUpdate row)

/-- The faithful backend: the Firestore bulk write applies every update
and reports success (`bulk_update_admin_logs` returns a plain bool). -/
def firestoreAttendanceBackend (store : List PyDict) (us : List AttUpdate) :
    Except String (Bool × List PyDict) :=
  .ok (true, applyAttUpdates store us)

/-- Result dictionary of `bulk_mark_attendance` (the fields the claims
are about). -/
structure MarkResult where
  success : Bool
  status : String
  updated : Nat
  skipped : Nat
deriving Repr

/-- The `try:` body of `bulk_mark_attendance` (lock already held):
empty student list → `failed`; all stored values already correct →
`no_changes` with no write; otherwise bulk-write exactly the differing
students, `completed`/`failed` by the backend's report; a backend
exception propagates. -/
def bulkMarkBody (store : List PyDict) (classId : String) (presentEmails : List String)
    (backend : List PyDict → List AttUpdate → Except String (Bool × List PyDict)) :
    Except String MarkResult × List PyDict :=
  if store.isEmpty then
    (.ok ⟨false, "failed", 0, 0⟩, store)
  else
    let (updates, skipped) := buildAttendanceUpdates store classId presentEmails
    if updates.isEmpty then
      (.ok ⟨true, "no_changes", 0, skipped⟩, store)
    else
      match backend store updates with
      | .error e => (.error e, store)
      | .ok (success, store') =>
        if success then
          (.ok ⟨true, "completed", updates.length, skipped⟩, store')
        else
          (.ok ⟨false, "failed", 0, skipped⟩, store')

/-- `bulk_mark_attendance`: non-blocking acquire of the per-class lock
(immediate `duplicate_request` when already held), then the body, then
the `finally:` release.  Returns (result, store, held-locks). -/
def bulk_mark_attendance (locks : List String) (store : List PyDict) (classId : String)
    (presentEmails : List String)
    (backend : List PyDict → List AttUpdate → Except String (Bool × List PyDict)) :
    Except String MarkResult × List PyDict × List String :=
  if locks.contains classId then
    (.ok ⟨false, "duplicate_request", 0, 0⟩, store, locks)
  else
    let locksHeld := classId :: locks
    let (res, store') := bulkMarkBody store classId presentEmails backend
    (res, store', locksHeld.erase classId)

/-- C7: a `bulk_mark_attendance` call arriving while the class's lock is
held returns `duplicate_request` with `updated = 0`, `skipped = 0` and
no state change; and on every outcome (completed, no_changes, failed, or
a propagated exception — any `backend`) the set of held locks afterwards
equals the set before: the acquired lock is always released. -/
theorem bulk_mark_attendance_lock_semantics
    (locks : List String) (store : List PyDict) (classId : String)
    (present : List String)
    (backend : List PyDict → List AttUpdate → Except String (Bool × List PyDict)) :
    (classId ∈ locks →
      bulk_mark_attendance locks store classId present backend
        = (.ok ⟨false, "duplicate_request", 0, 0⟩, store, locks)) ∧
    (bulk_mark_attendance locks store classId present backend).2.2 = locks := by
  constructor
  · intro hmem
    have hc : locks.contains classId = true := by simpa using hmem
    rw [bulk_mark_attendance, hc]
    simp
  · rw [bulk_mark_attendance]
    by_cases hmem : classId ∈ locks
    · have hc : locks.contains classId = true := by simpa using hmem
      rw [hc]
      simp
    · have hc : locks.contains classId = false := by simpa using hmem
      rw [hc]
      rcases hbody : bulkMarkBody store classId present backend with ⟨res, store'⟩
      simp [hbody, List.erase_cons_head]

/-- Witness for C7: a concrete contended call is rejected with zeros,
and an uncontended call restores the (empty) lock set. -/
theorem bulk_mark_attendance_lock_semantics_witness :
    bulk_mark_attendance ["class1"] [[("Email Address", .vstr "a@x.com")]] "class1"
        ["a@x.com"] firestoreAttendanceBackend
      = (.ok ⟨false, "duplicate_request", 0, 0⟩,
          [[("Email Address", .vstr "a@x.com")]], ["class1"]) ∧
    (bulk_mark_attendance [] [[("Email Address", .vstr "a@x.com")]] "class1"
        ["a@x.com"] firestoreAttendanceBackend).2.2 = [] :=
  ⟨(bulk_mark_attendance_lock_semantics ["class1"] [[("Email Address", .vstr "a@x.com")]]
      "class1" ["a@x.com"] firestoreAttendanceBackend).1 (by decide),
   (bulk_mark_attendance_lock_semantics [] [[("Email Address", .vstr "a@x.com")]]
      "class1" ["a@x.com"] firestoreAttendanceBackend).2⟩

theorem dget?_dictUpdate_not_mem {d new : PyDict} {k : String} (h : k ∉ keysOf new) :
    dget? (dictUpdate d new) k = dget? d k := by
  induction new generalizing d with
  | nil => rfl
  | cons e rest ih =>
    simp only [keysOf, List.map_cons, List.mem_cons, not_or] at h
    rw [dictUpdate, List.foldl_cons]
    have := ih (d := dset d e.1 e.2) (by simpa [keysOf] using h.2)
    rw [dictUpdate] at this
    rw [this, dget?_dset_ne _ _ _ _ h.1]

theorem dget?_dictUpdate_mem {d new : PyDict} {k : String} {x : PyVal}
    (hnd : (keysOf new).Nodup) (h : dget? new k = some x) :
    dget? (dictUpdate d new) k = some x := by
  induction new generalizing d with
  | nil => simp [dget?] at h
  | cons e rest ih =>
    obtain ⟨k1, v1⟩ := e
    simp only [keysOf, List.map_cons, List.nodup_cons] at hnd
    rw [dictUpdate, List.foldl_cons]
    by_cases hk : k1 = k
    · subst hk
      have hx : v1 = x := by simpa [dget?, List.find?] using h
      have hni := dget?_dictUpdate_not_mem (d := dset d k1 v1) hnd.1
      rw [dictUpdate] at hni
      rw [hni, dget?_dset_same, hx]
    · have hb : (k1 == k) = false := by simpa using hk
      have h' : dget? rest k = some x := by simpa [dget?, List.find?, hb] using h
      have := ih (d := dset d k1 v1) hnd.2 h'
      rw [dictUpdate] at this
      rw [this]

theorem mem_keysOf_dset {d : PyDict} {k x : String} {v : PyVal}
    (h : x ∈ keysOf (dset d k v)) : x = k ∨ x ∈ keysOf d := by
  induction d with
  | nil => simpa [dset, keysOf] using h
  | cons e t ih =>
    obtain ⟨k1, v1⟩ := e
    by_cases hk : k1 = k
    · subst hk
      simp only [dset, beq_self_eq_true, if_true, keysOf, List.map_cons, List.mem_cons] at h ⊢
      tauto
    · have hb : (k1 == k) = false := by simpa using hk
      simp only [dset, hb, Bool.false_eq_true, if_false, keysOf, List.map_cons,
        List.mem_cons] at h ⊢
      rcases h with h | h
      · tauto
      · rcases ih h with h' | h' <;> tauto

theorem nodup_keys_dset {d : PyDict} {k : String} {v : PyVal}
    (h : (keysOf d).Nodup) : (keysOf (dset d k v)).Nodup := by
  induction d with
  | nil => simp [dset, keysOf]
  | cons e t ih =>
    obtain ⟨k1, v1⟩ := e
    simp only [keysOf, List.map_cons, List.nodup_cons] at h
    by_cases hk : k1 = k
    · subst hk
      simp only [dset, beq_self_eq_true, if_true, keysOf, List.map_cons, List.nodup_cons]
      exact ⟨h.1, h.2⟩
    · have hb : (k1 == k) = false := by simpa using hk
      simp only [dset, hb, Bool.false_eq_true, if_false, keysOf, List.map_cons,
        List.nodup_cons]
      refine ⟨?_, ih h.2⟩
      intro hmem
      rcases mem_keysOf_dset hmem with h' | h'
      · exact hk h'
      · exact h.1 h'

/-- Well-formedness of the attendance dict extracted from a well-formed
student row. -/
theorem attDict_nodup {row : PyDict} (hwf : pyWF (.vdict row) = true) :
    (keysOf (attDict (dget row "Attendance" .vnone))).Nodup := by
  rw [pyWF, Bool.and_eq_true] at hwf
  rcases hf : row.find? (fun e => e.1 == "Attendance") with _ | e
  · simp [dget, dget?, hf, attDict, keysOf]
  · have hewf := pyWFEntries_mem hwf.2 (List.mem_of_find?_eq_some hf)
    rcases e with ⟨k0, v0⟩
    cases v0 with
    | vdict d0 =>
      rw [pyWF, Bool.and_eq_true] at hewf
      simpa [dget, dget?, hf, attDict] using of_decide_eq_true hewf.1
    | vnone => simp [dget, dget?, hf, attDict, keysOf]
    | vbool b => simp [dget, dget?, hf, attDict, keysOf]
    | vint n => simp [dget, dget?, hf, attDict, keysOf]
    | vstr s0 => simp [dget, dget?, hf, attDict, keysOf]

theorem buildAttendanceUpdates_invariant {students : List PyDict} {cid : String}
    {present : List String} (hwf : ∀ s ∈ students, pyWF (.vdict s) = true) :
    ∀ u ∈ (buildAttendanceUpdates students cid present).1,
      dget? u.attendance cid
          = some (.vbool ((presentSet present).contains (pyNormEmail u.email))) ∧
        (keysOf u.attendance).Nodup := by
  induction students with
  | nil => intro u hu; simp [buildAttendanceUpdates] at hu
  | cons s rest ih =>
    intro u hu
    have ihr := ih (fun s' hs' => hwf s' (List.mem_cons_of_mem s hs'))
    rcases hrec : buildAttendanceUpdates rest cid present with ⟨us, sk⟩
    rw [hrec] at ihr
    simp only [buildAttendanceUpdates, hrec] at hu
    split at hu
    · exact ihr u hu
    · split at hu
      · exact ihr u hu
      · rcases List.mem_cons.mp hu with rfl | hmem
        · refine ⟨dget?_dset_same _ _ _, ?_⟩
          exact nodup_keys_dset (attDict_nodup (hwf s (List.mem_cons_self s rest)))
        · exact ihr u hmem

theorem buildAttendanceUpdates_superset {students : List PyDict} {s0 : PyDict}
    {cid : String} {present : List String} :
    ∀ u ∈ (buildAttendanceUpdates students cid present).1,
      u ∈ (buildAttendanceUpdates (s0 :: students) cid present).1 := by
  intro u hu
  rcases hrec : buildAttendanceUpdates students cid present with ⟨us, sk⟩
  rw [hrec] at hu
  simp only [buildAttendanceUpdates, hrec]
  split
  · exact hu
  · split
    · exact hu
    · exact List.mem_cons_of_mem _ hu

theorem build_skipped_means_ok {students : List PyDict} {cid : String}
    {present : List String} :
    ∀ s ∈ students,
      pyTruthy (dget s "Email Address" (.vstr "")) = true →
      (∀ u ∈ (buildAttendanceUpdates students cid present).1,
        pyNormEmail u.email ≠ pyNormEmail (dget s "Email Address" (.vstr ""))) →
      PyVal.beq (dget (attDict (dget s "Attendance" .vnone)) cid (.vbool false))
          (.vbool ((presentSet present).contains
            (pyNormEmail (dget s "Email Address" (.vstr "")))))
        = true := by
  induction students with
  | nil => intro s hs; cases hs
  | cons s0 rest ih =>
    intro s hs htr hno
    rcases List.mem_cons.mp hs with rfl | hmem
    · by_contra hne
      have hne' : PyVal.beq (dget (attDict (dget s "Attendance" .vnone)) cid (.vbool false))
          (.vbool ((presentSet present).contains
            (pyNormEmail (dget s "Email Address" (.vstr ""))))) = false :=
        Bool.eq_false_iff.mpr hne
      have hmemu : AttUpdate.mk (dget s "Email Address" (.vstr ""))
          (dset (attDict (dget s "Attendance" .vnone)) cid
            (.vbool ((presentSet present).contains
              (pyNormEmail (dget s "Email Address" (.vstr ""))))))
          ∈ (buildAttendanceUpdates (s :: rest) cid present).1 := by
        rcases hrec : buildAttendanceUpdates rest cid present with ⟨us, sk⟩
        simp only [buildAttendanceUpdates, hrec, htr, Bool.not_true, Bool.false_eq_true,
          if_false, hne']
        exact List.mem_cons_self _ _
      exact hno _ hmemu rfl
    · refine ih s hmem htr ?_
      intro u hu
      exact hno u (buildAttendanceUpdates_superset u hu)

theorem build_no_updates {students : List PyDict} {cid : String} {present : List String}
    (h : ∀ s ∈ students,
      pyTruthy (dget s "Email Address" (.vstr "")) = false ∨
      PyVal.beq (dget (attDict (dget s "Attendance" .vnone)) cid (.vbool false))
          (.vbool ((presentSet present).contains
            (pyNormEmail (dget s "Email Address" (.vstr ""))))) = true) :
    (buildAttendanceUpdates students cid present).1 = [] := by
  induction students with
  | nil => rfl
  | cons s rest ih =>
    have ihr := ih (fun s' hs' => h s' (List.mem_cons_of_mem s hs'))
    rcases hrec : buildAttendanceUpdates rest cid present with ⟨us, sk⟩
    rw [hrec] at ihr
    simp only [buildAttendanceUpdates, hrec]
    rcases h s (List.mem_cons_self s rest) with hf | hok
    · rw [hf]
      simpa using ihr
    · rw [hok]
      split
    
      · exact ihr
      · simpa using ihr

theorem applyAttUpdate_email (row : PyDict) (u : AttUpdate) :
    dget? (applyAttUpdate row u) "Email Address" = dget? row "Email Address" := by
  rw [applyAttUpdate]
  split
  · exact dget?_dset_ne _ _ _ _ (by decide)
  · rfl

theorem foldl_applyAttUpdate_email (row : PyDict) (us : List AttUpdate) :
    dget? (us.foldl applyAttUpdate row) "Email Address" = dget? row "Email Address" := by
  induction us generalizing row with
  | nil => rfl
  | cons u rest ih => rw [List.foldl_cons, ih, applyAttUpdate_email]

theorem beq_vbool_self (b : Bool) : PyVal.beq (.vbool b) (.vbool b) = true := by
  simp [PyVal.beq]

/-- After the bulk write, a student row either was untouched (no update
carried its normalised email) or its stored attendance for the class
equals the desired presence for that email. -/
theorem foldl_applyAttUpdate_att (row : PyDict) (us : List AttUpdate) (cid : String)
    (present : List String)
    (hu : ∀ u ∈ us,
      dget? u.attendance cid
          = some (.vbool ((presentSet present).contains (pyNormEmail u.email))) ∧
        (keysOf u.attendance).Nodup) :
    (us.foldl applyAttUpdate row = row ∧
      ∀ u ∈ us, pyNormEmail u.email ≠ pyNormEmail (dget row "Email Address" (.vstr ""))) ∨
    dget? (attDict (dget (us.foldl applyAttUpdate row) "Attendance" .vnone)) cid
      = some (.vbool ((presentSet present).contains
          (pyNormEmail (dget row "Email Address" (.vstr ""))))) := by
  induction us generalizing row with
  | nil => exact Or.inl ⟨rfl, by simp⟩
  | cons u rest ih =>
    have hurest : ∀ u' ∈ rest,
        dget? u'.attendance cid
            = some (.vbool ((presentSet present).contains (pyNormEmail u'.email))) ∧
          (keysOf u'.attendance).Nodup :=
      fun u' hu' => hu u' (List.mem_cons_of_mem u hu')
    have hhead := hu u (List.mem_cons_self u rest)
    rw [List.foldl_cons]
    by_cases hm : pyNormEmail u.email = pyNormEmail (dget row "Email Address" (.vstr ""))
    · right
      have hc : (pyNormEmail (dget row "Email Address" (.vstr ""))
          == pyNormEmail u.email) = true := by
        rw [hm]
        exact beq_self_eq_true _
      have hrow1 : applyAttUpdate row u
          = dset row "Attendance"
              (.vdict (dictUpdate (attDict (dget row "Attendance" .vnone)) u.attendance)) := by
        rw [applyAttUpdate, if_pos hc]
      have hval : dget? (attDict (dget (applyAttUpdate row u) "Attendance" .vnone)) cid
          = some (.vbool ((presentSet present).contains
              (pyNormEmail (dget row "Email Address" (.vstr ""))))) := by
        rw [hrow1, dget, dget?_dset_same, Option.getD_some]
        have := dget?_dictUpdate_mem
          (d := attDict (dget row "Attendance" .vnone)) hhead.2 hhead.1
        rw [attDict, this, hm]
      have hemail1 : pyNormEmail (dget (applyAttUpdate row u) "Email Address" (.vstr ""))
          = pyNormEmail (dget row "Email Address" (.vstr "")) := by
        rw [dget, dget, applyAttUpdate_email]
      rcases ih (applyAttUpdate row u) hurest with ⟨heq, _⟩ | hval2
      · rw [heq]
        exact hval
      · rw [hemail1] at hval2
        exact hval2
    · have hc : (pyNormEmail (dget row "Email Address" (.vstr ""))
          == pyNormEmail u.email) = false := by
        rw [beq_eq_false_iff_ne]
        exact fun h => hm h.symm
      have hrow1 : applyAttUpdate row u = row := by
        rw [applyAttUpdate, hc]
        simp
      rw [hrow1]
      rcases ih row hurest with ⟨heq, hall⟩ | hval2
      · refine Or.inl ⟨heq, ?_⟩
        intro u' hu'
        rcases List.mem_cons.mp hu' with rfl | hmem
        · exact hm
        · exact hall u' hmem
      · exact Or.inr hval2

theorem bulkMarkBody_empty {store : List PyDict} {cid : String} {present : List String}
    {backend : List PyDict → List AttUpdate → Except String (Bool × List PyDict)}
    (hemp : store.isEmpty = true) :
    bulkMarkBody store cid present backend = (.ok ⟨false, "failed", 0, 0⟩, store) := by
  simp [bulkMarkBody, hemp]

theorem bulkMarkBody_no_changes {store : List PyDict} {cid : String} {present : List String}
    {backend : List PyDict → List AttUpdate → Except String (Bool × List PyDict)}
    {skipped : Nat} (hemp : store.isEmpty = false)
    (hb : buildAttendanceUpdates store cid present = ([], skipped)) :
    bulkMarkBody store cid present backend
      = (.ok ⟨true, "no_changes", 0, skipped⟩, store) := by
  simp [bulkMarkBody, hemp, hb]

theorem bulkMarkBody_completed {store : List PyDict} {cid : String} {present : List String}
    {us : List AttUpdate} {skipped : Nat} (hemp : store.isEmpty = false)
    (hb : buildAttendanceUpdates store cid present = (us, skipped))
    (hne : us.isEmpty = false) :
    bulkMarkBody store cid present firestoreAttendanceBackend
      = (.ok ⟨true, "completed", us.length, skipped⟩, applyAttUpdates store us) := by
  simp [bulkMarkBody, hemp, hb, hne, firestoreAttendanceBackend]

theorem bulk_mark_attendance_nolock {store : List PyDict} {cid : String}
    {present : List String}
    {backend : List PyDict → List AttUpdate → Except String (Bool × List PyDict)}
    {res : Except String MarkResult} {st : List PyDict}
    (hb : bulkMarkBody store cid present backend = (res, st)) :
    bulk_mark_attendance [] store cid present backend = (res, st, []) := by
  rw [bulk_mark_attendance]
  simp [hb, List.erase_cons_head]

/-- C4: with no concurrent modification, calling `bulk_mark_attendance`
twice in a row for the same class with the same `present_emails` makes
the second call return `no_changes` with `updated = 0` and leave the
store untouched, provided the first call succeeded.  `hwf` states that
the student rows are real Python dicts (unique keys in nested dicts). -/
theorem bulk_mark_attendance_idempotent
    (store : List PyDict) (cid : String) (present : List String)
    (r1 : MarkResult) (s1 : List PyDict) (l1 : List String)
    (hwf : ∀ s ∈ store, pyWF (.vdict s) = true)
    (hcall : bulk_mark_attendance [] store cid present firestoreAttendanceBackend
      = (.ok r1, s1, l1))
    (hsucc : r1.success = true) :
    ∃ r2, bulk_mark_attendance [] s1 cid present firestoreAttendanceBackend
        = (.ok r2, s1, []) ∧ r2.status = "no_changes" ∧ r2.updated = 0 := by
  rcases hbuild : buildAttendanceUpdates store cid present with ⟨updates, skipped⟩
  by_cases hemp : store.isEmpty = true
  · have h1 := @bulk_mark_attendance_nolock _ _ _ firestoreAttendanceBackend _ _
      (@bulkMarkBody_empty _ cid present firestoreAttendanceBackend hemp)
    have heq := h1.symm.trans hcall
    simp only [Prod.mk.injEq, Except.ok.injEq] at heq
    rw [← heq.1] at hsucc
    simp at hsucc
  · have hemp' : store.isEmpty = false := by simpa using hemp
    by_cases hupd : updates.isEmpty = true
    · have hupdeq : updates = [] := by
        cases updates
        · rfl
        · simp at hupd
      subst hupdeq
      have h1 := @bulk_mark_attendance_nolock _ _ _ firestoreAttendanceBackend _ _
        (bulkMarkBody_no_changes hemp' hbuild)
      have heq := h1.symm.trans hcall
      simp only [Prod.mk.injEq, Except.ok.injEq] at heq
      refine ⟨⟨true, "no_changes", 0, skipped⟩, ?_, rfl, rfl⟩
      rw [← heq.2.1]
      exact h1
    · have hupd' : updates.isEmpty = false := by simpa using hupd
      have h1 := bulk_mark_attendance_nolock (bulkMarkBody_completed hemp' hbuild hupd')
      have heq := h1.symm.trans hcall
      simp only [Prod.mk.injEq, Except.ok.injEq] at heq
      have hs1 : s1 = applyAttUpdates store updates := heq.2.1.symm
      -- the invariant satisfied by the written updates
      have hinv : ∀ u ∈ updates,
          dget? u.attendance cid
              = some (.vbool ((presentSet present).contains (pyNormEmail u.email))) ∧
            (keysOf u.attendance).Nodup := by
        intro u hu
        exact buildAttendanceUpdates_invariant hwf u (by rw [hbuild]; exact hu)
      -- every row of the written store now passes the idempotency check
      have hok : ∀ s' ∈ s1,
          pyTruthy (dget s' "Email Address" (.vstr "")) = false ∨
          PyVal.beq (dget (attDict (dget s' "Attendance" .vnone)) cid (.vbool false))
              (.vbool ((presentSet present).contains
                (pyNormEmail (dget s' "Email Address" (.vstr ""))))) = true := by
        intro s' hs'
        rw [hs1] at hs'
        obtain ⟨row, hrow, hfold⟩ := List.mem_map.mp hs'
        have hemail : dget s' "Email Address" (.vstr "")
            = dget row "Email Address" (.vstr "") := by
          rw [← hfold, dget, dget, foldl_applyAttUpdate_email]
        by_cases htr : pyTruthy (dget row "Email Address" (.vstr "")) = true
        · right
          rcases foldl_applyAttUpdate_att row updates cid present hinv with ⟨hfeq, hno⟩ | hval
          · rw [hemail, ← hfold, hfeq]
            refine build_skipped_means_ok row hrow htr ?_
            intro u hu
            have hfst : (buildAttendanceUpdates store cid present).1 = updates := by
              rw [hbuild]
            exact hno u (hfst ▸ hu)
          · rw [hemail, ← hfold, dget, hval, Option.getD_some]
            exact beq_vbool_self _
        · left
          rw [hemail]
          simpa using htr
      have hbuilds1 : (buildAttendanceUpdates s1 cid present).1 = [] := build_no_updates hok
      rcases hb2 : buildAttendanceUpdates s1 cid present with ⟨us2, sk2⟩
      have hus2 : us2 = [] := by rw [hb2] at hbuilds1; exact hbuilds1
      subst hus2
      have hs1emp : s1.isEmpty = false := by
        rw [hs1]
        cases hst : store with
        | nil => rw [hst] at hemp'; simp at hemp'
        | cons a t => simp [applyAttUpdates]
      have h2 := @bulk_mark_attendance_nolock _ _ _ firestoreAttendanceBackend _ _
        (bulkMarkBody_no_changes hs1emp hb2)
      exact ⟨⟨true, "no_changes", 0, sk2⟩, h2, rfl, rfl⟩

/-- Witness for C4 at a concrete store: the first call marks one
student present (`completed`), the second reports `no_changes`. -/
theorem bulk_mark_attendance_idempotent_witness :
    (∀ s ∈ ([[("Email Address", PyVal.vstr "a@x.com"), ("Attendance", PyVal.vdict [])]] :
        List PyDict), pyWF (.vdict s) = true) ∧
    bulk_mark_attendance []
        [[("Email Address", PyVal.vstr "a@x.com"), ("Attendance", PyVal.vdict [])]]
        "c1" ["a@x.com"] firestoreAttendanceBackend
      = (.ok ⟨true, "completed", 1, 0⟩,
          [[("Email Address", PyVal.vstr "a@x.com"),
            ("Attendance", PyVal.vdict [("c1", PyVal.vbool true)])]], []) ∧
    (∃ r2, bulk_mark_attendance []
        [[("Email Address", PyVal.vstr "a@x.com"),
          ("Attendance", PyVal.vdict [("c1", PyVal.vbool true)])]]
        "c1" ["a@x.com"] firestoreAttendanceBackend
      = (.ok r2,
          [[("Email Address", PyVal.vstr "a@x.com"),
            ("Attendance", PyVal.vdict [("c1", PyVal.vbool true)])]], []) ∧
      r2.status = "no_changes" ∧ r2.updated = 0) :=
  ⟨by intro s hs; rw [List.mem_singleton] at hs; subst hs; decide, rfl,
    bulk_mark_attendance_idempotent
      [[("Email Address", PyVal.vstr "a@x.com"), ("Attendance", PyVal.vdict [])]]
      "c1" ["a@x.com"] ⟨true, "completed", 1, 0⟩
      [[("Email Address", PyVal.vstr "a@x.com"),
        ("Attendance", PyVal.vdict [("c1", PyVal.vbool true)])]] []
      (by intro s hs; rw [List.mem_singleton] at hs; subst hs; decide) rfl rfl⟩

/-!
## Register/Survey merge engine
(`merge_register_survey` and helpers, backend/sheets/sheets_merge.py)

A pandas `DataFrame` is modelled as a column-name list plus one
association list per row; a missing cell reads as `vnone` (pandas
`NaN`).  Row iteration (`iterrows`) and per-cell assignment (`df.at`)
become per-row transformations; whole-column assignment maps over the
rows.  Statements that raise in Python are modelled with `Except`.
-/

/-- A pandas DataFrame: column names (in order) and rows. -/
structure Df where
  cols : List String
  rows : List PyDict
deriving Repr

/-- `df.empty` (no rows). -/
def Df.isEmptyDf (df : Df) : Bool := df.rows.isEmpty

/-- Read a cell; a missing entry is `NaN`. -/
def cell (r : PyDict) (c : String) : PyVal := dget r c .vnone

/-- `df[c] = v` — whole-column assignment. -/
def Df.setCol (df : Df) (c : String) (v : PyVal) : Df :=
  { cols := if df.cols.contains c then df.cols else df.cols ++ [c]
    rows := df.rows.map (fun r => dset r c v) }

/-- `df[c] = <per-row value>`. -/
def Df.setColWith (df : Df) (c : String) (f : PyDict → PyVal) : Df :=
  { cols := if df.cols.contains c then df.cols else df.cols ++ [c]
    rows := df.rows.map (fun r => dset r c (f r)) }

/-- Python `needle in hay` on strings. -/
def strContains (hay needle : String) : Bool := decide (needle.data <:+: hay.data)

/-- `_find_column_by_keywords`: first column whose lowercase name
contains one of the keywords. -/
def _find_column_by_keywords (df : Df) (keywords : List String) : Option String :=
  df.cols.find? (fun col => keywords.any (fun kw => strContains (strLower col) kw))

/-- `_find_email_column`. -/
def _find_email_column (df : Df) : Option String :=
  _find_column_by_keywords df ["email", "e-mail", "email address"]

/-- `_find_student_email_column` (requires a non-empty frame). -/
def _find_student_email_column (df : Df) : Option String :=
  if df.isEmptyDf then none
  else _find_column_by_keywords df ["student email", "student_email", "student e-mail"]

/-- `str(row.get(col, ""))`: the default applies only when the column is
absent from the frame; a present-but-missing value is `NaN`, whose
`str()` is `"nan"`. -/
def rowGetStr (cols : List String) (row : PyDict) (c : String) : String :=
  if cols.contains c then pyStr (cell row c) else ""

/-- `str(col).lower().strip().replace(".", "")` — column-name
normalisation used by `_match_column` in `_build_register_key_ring`. -/
def normColName (c : String) : String :=
  ⟨(strStrip (strLower c)).data.filter (fun ch => ch ≠ '.')⟩

/-- `_match_column`: first register column whose normalised name equals
one of the candidates' normalised names. -/
def _match_column (df : Df) (possible : List String) : Option String :=
  df.cols.find? (fun col => possible.any (fun name => normColName col == normColName name))

/-- The canonical payment fields and their source columns
(`field_to_source_col`). -/
def fieldToSourceCol (df : Df) (ecol scol : Option String) : List (String × Option String) :=
  [("Choose The Tiered Program.",
      _match_column df ["Choose The Tiered Program.", "Choose The Tiered Program"]),
   ("Payment Method", _match_column df ["Payment Method"]),
   ("Add Payment Screenshot",
      _match_column df ["Add Payment Screenshot.", "Add Payment Screenshot"]),
   ("Email Address", ecol),
   ("Student Email", scol),
   ("Onboarding", _match_column df ["Onboarding"])]

/-- `str(row.get(col, "")).strip().lower()` when the column reference is
set, else `""`. -/
def normEmailCell (cols : List String) (row : PyDict) : Option String → String
  | some c => strLower (strStrip (rowGetStr cols row c))
  | none => ""

/-- The payment record captured for one register row, with its internal
`_register_key` (primary email, else student email). -/
def paymentDataOfRow (df : Df) (ecol scol : Option String) (row : PyDict) : PyDict :=
  ((fieldToSourceCol df ecol scol).map (fun fs =>
      (fs.1, match fs.2 with
             | some c => if df.cols.contains c then cell row c else .vnone
             | none => .vnone)))
    ++ [("_register_key",
          .vstr (if normEmailCell df.cols row ecol ≠ "" then normEmailCell df.cols row ecol
                 else normEmailCell df.cols row scol))]

/-- Whether a register row indexes the key-ring key `k` (under its
normalised primary or student email). -/
def rowIndexesKey (df : Df) (ecol scol : Option String) (row : PyDict) (k : String) : Bool :=
  (normEmailCell df.cols row ecol != "" && normEmailCell df.cols row ecol == k) ||
  (normEmailCell df.cols row scol != "" && normEmailCell df.cols row scol == k)

/-- Index one register row's payment record into the key ring (primary
email first, then student email; an existing key's entry is replaced). -/
def insertRegisterRow (df : Df) (ecol scol : Option String) (ring : PyDict)
    (row : PyDict) : PyDict :=
  let pd := paymentDataOfRow df ecol scol row
  let primary := normEmailCell df.cols row ecol
  let student := normEmailCell df.cols row scol
  let ring1 := if primary ≠ "" then dset ring primary (.vdict pd) else ring
  if student ≠ "" then dset ring1 student (.vdict pd) else ring1

/-- `_build_register_key_ring`. -/
def _build_register_key_ring (df : Df) (ecol scol : Option String) : PyDict :=
  if df.isEmptyDf then []
  else df.rows.foldl (insertRegisterRow df ecol scol) []

/-- The key-ring lookup priority of `_merge_survey_with_key_ring`:
student email first, then the Google email (`if sse and sse in
key_ring: ... elif se and se in key_ring: ...`). -/
def resolvedKey (cols : List String) (ecol scol : Option String) (ring : PyDict)
    (row : PyDict) : Option String :=
  let sse := normEmailCell cols row scol
  let se := normEmailCell cols row ecol
  if sse ≠ "" && (dget? ring sse).isSome then some sse
  else if se ≠ "" && (dget? ring se).isSome then some se
  else none

/-- `pd.notna(v) and str(v).strip() != ""` — the screenshot-presence
test deciding `Paid`/`Unpaid`. -/
def hasScreenshot (v : PyVal) : Bool :=
  match v with
  | .vnone => false
  | w => strStrip (pyStr w) != ""

/-- The per-row body of the `_merge_survey_with_key_ring` loop: inject
payment fields on a hit, set `Payment Status`, backfill the canonical
email columns, and report the consumed `_register_key` (if any). -/
def mergeSurveyRow (cols : List String) (ecol scol : Option String) (ring : PyDict)
    (row : PyDict) : PyDict × List String :=
  let step :=
    match resolvedKey cols ecol scol ring row with
    | some k =>
      match dget? ring k with
      | some (.vdict pd) =>
        let r1 := ["Choose The Tiered Program.", "Payment Method", "Add Payment Screenshot",
            "Onboarding"].foldl (fun r f => dset r f (dget pd f .vnone)) row
        let r2 := if !pyTruthy (cell r1 "Email Address") then
            dset r1 "Email Address" (dget pd "Email Address" .vnone) else r1
        let r3 := if !pyTruthy (cell r2 "Student Email") then
            dset r2 "Student Email" (dget pd "Student Email" .vnone) else r2
        let r4 := dset r3 "Payment Status"
            (.vstr (if hasScreenshot (dget pd "Add Payment Screenshot" .vnone)
                    then "Paid" else "Unpaid"))
        let consumed :=
          match dget pd "_register_key" .vnone with
          | .vstr rk => if rk ≠ "" then [rk] else []
          | _ => []
        (r4, consumed)
      | _ => (dset row "Payment Status" (.vstr "Unpaid"), [])
    | none => (dset row "Payment Status" (.vstr "Unpaid"), [])
  let r5 :=
    match ecol with
    | some ec =>
      if !pyTruthy (cell step.1 "Email Address") then
        dset step.1 "Email Address" (cell row ec)
      else step.1
    | none => step.1
  (r5, step.2)

/-- The payment-related columns ensured on the survey frame. -/
def paymentColumns : List String :=
  ["Choose The Tiered Program.", "Payment Method", "Add Payment Screenshot",
   "Email Address", "Student Email", "Onboarding", "Payment Status"]

/-- `_merge_survey_with_key_ring`. -/
def _merge_survey_with_key_ring (survey : Df) (ecol scol : Option String)
    (ring : PyDict) : Df × List String :=
  if survey.isEmptyDf then (⟨[], []⟩, [])
  else
    let df1 := survey.setCol "Has Survey Response" (.vbool true)
    let df2 := paymentColumns.foldl
      (fun d col => if d.cols.contains col then d else d.setCol col .vnone) df1
    let results := df2.rows.map (mergeSurveyRow df2.cols ecol scol ring)
    (⟨df2.cols, results.map Prod.fst⟩, (results.map Prod.snd).flatten)

/-- `_status_from_screenshot`. -/
def _status_from_screenshot (v : PyVal) : String :=
  if hasScreenshot v then "Paid" else "Unpaid"

/-- Column-name collection of `pd.DataFrame(records)`: keys in order of
first appearance. -/
def recordCols (records : List PyDict) : List String :=
  records.foldl (fun acc r => acc ++ ((keysOf r).filter (fun k => !acc.contains k))) []

/-- `_process_register_only`: rebuild the key ring, turn its values into
rows, compute `Payment Status` from the screenshot and flag the rows as
having no survey response. -/
def _process_register_only (df : Df) (ecol scol : Option String) : Df :=
  let ring := _build_register_key_ring df ecol scol
  if ring.isEmpty then ⟨[], []⟩
  else
    let records := ring.map (fun e =>
      match e.2 with
      | .vdict pd => pd
      | _ => [])
    let base : Df := ⟨recordCols records, records⟩
    let base2 := if base.cols.contains "Add Payment Screenshot" then base
      else base.setCol "Add Payment Screenshot" .vnone
    let withStatus := base2.setColWith "Payment Status"
      (fun r => .vstr (_status_from_screenshot (cell r "Add Payment Screenshot")))
    withStatus.setCol "Has Survey Response" (.vbool false)

/-- `df["Name"] = df["Name"].fillna(df[src])` (when `src` is a column). -/
def fillNameFrom (df : Df) (src : String) : Df :=
  if df.cols.contains src then
    ⟨df.cols, df.rows.map (fun r =>
      if cell r "Name" == .vnone then dset r "Name" (cell r src) else r)⟩
  else df

/-- `_normalize_name_columns`. -/
def _normalize_name_columns (df : Df) : Df :=
  if df.isEmptyDf then df
  else
    let d1 := if df.cols.contains "Name" then df else df.setCol "Name" .vnone
    let d2 := (["Student Full Name", "Student Name", "Full Name"].foldl fillNameFrom d1)
    let d3 :=
      if d2.cols.contains "First Name" && d2.cols.contains "Last Name" then
        ⟨d2.cols, d2.rows.map (fun r =>
          if cell r "Name" == .vnone then
            let first := strStrip (pyStr (if cell r "First Name" == .vnone then .vstr ""
              else cell r "First Name"))
            let last := strStrip (pyStr (if cell r "Last Name" == .vnone then .vstr ""
              else cell r "Last Name"))
            let full := strStrip (first ++ " " ++ last)
            if full = "" then r else dset r "Name" (.vstr full)
          else r)⟩
      else d2
    let d4 := fillNameFrom d3 "First Name"
    fillNameFrom d4 "Last Name"

/-- The value of the internal `_register_key` column is in the consumed
set (`isin`; a `NaN` cell never matches). -/
def registerKeyConsumed (matched : List String) (v : PyVal) : Bool :=
  match v with
  | .vstr s => matched.contains s
  | _ => false

/-- Drop a column from the frame. -/
def Df.dropCol (df : Df) (c : String) : Df :=
  ⟨df.cols.filter (fun c0 => c0 ≠ c), df.rows.map (fun r => r.filter (fun e => e.1 ≠ c))⟩

/-- `pd.concat([a, b], ignore_index=True, sort=False)`: rows appended,
columns of `b` not in `a` appended after `a`'s. -/
def Df.concat (a b : Df) : Df :=
  ⟨a.cols ++ b.cols.filter (fun c => !a.cols.contains c), a.rows ++ b.rows⟩

/-- `merge_register_survey`.  The survey-empty / no-survey-email branch
calls `_process_register_only` with only two of its three required
positional arguments, which raises `TypeError` in Python; modelled as an
error. -/
def merge_register_survey (register survey : Df) : Except String Df :=
  let register_email_col := if !register.isEmptyDf then _find_email_column register else none
  let survey_email_col := if !survey.isEmptyDf then _find_email_column survey else none
  let register_student_email_col :=
    if !register.isEmptyDf then _find_student_email_column register else none
  if register.isEmptyDf && survey.isEmptyDf then .ok ⟨[], []⟩
  else if register.isEmptyDf then .ok (survey.setCol "Payment Status" (.vstr "Unpaid"))
  else if survey.isEmptyDf || survey_email_col.isNone then
    .error "TypeError: _process_register_only() missing 1 required positional argument"
  else if register_email_col.isNone then
    .error "ValueError: Register spreadsheet must have an Email Address column"
  else
    let survey_student_email_col := _find_student_email_column survey
    let ring := _build_register_key_ring register register_email_col register_student_email_col
    let ms := _merge_survey_with_key_ring survey survey_email_col survey_student_email_col ring
    let register_only := _process_register_only register register_email_col
      register_student_email_col
    let merged :=
      if !register_only.isEmptyDf then
        if register_only.cols.contains "_register_key" then
          let unmatched : Df :=
            (Df.mk register_only.cols
              (register_only.rows.filter
                (fun r => !registerKeyConsumed ms.2 (cell r "_register_key")))).dropCol
              "_register_key"
          if !unmatched.isEmptyDf then ms.1.concat unmatched else ms.1
        else
          if !register_only.isEmptyDf then ms.1.concat register_only else ms.1
      else ms.1
    .ok (_normalize_name_columns merged)

/-!
## Admin-data overlay
(`merge_with_admin_logs`, backend/sheets/sheets_merge.py, and the
normalized-email deduplication step of `get_all_students`,
backend/sheets/google_sheets_manager.py)
-/

/-- Join-key equality in a pandas merge: both cells non-null and equal
(`NaN` never matches). -/
def joinKeyEq (a b : PyVal) : Bool :=
  match a, b with
  | .vnone, _ => false
  | _, .vnone => false
  | a, b => PyVal.beq a b

/-- `left.merge(right, left_on, right_on, how="outer", suffixes=("",
"_admin"))`: overlapping column names of the right frame get the
`_admin` suffix; every left row is paired with each matching right row
(or null-extended), and unmatched right rows are appended.  (pandas's
exact output ordering for unsorted outer joins is an implementation
detail; this model keeps left order first, then unmatched right rows.) -/
def outerMerge (left right : Df) (lkey rkey : String) : Df :=
  let rename := fun c => if left.cols.contains c then c ++ "_admin" else c
  let rcols := right.cols.map rename
  let rrows := right.rows.map (fun r => r.map (fun e => (rename e.1, e.2)))
  let rkey' := rename rkey
  let matchedPairs := left.rows.map (fun l =>
    (l, rrows.filter (fun r => joinKeyEq (cell l lkey) (cell r rkey'))))
  let leftPart := (matchedPairs.map (fun p =>
    match p.2 with
    | [] => [p.1]
    | ms => ms.map (fun r => p.1 ++ r))).flatten
  let rightOnly := rrows.filter (fun r =>
    !(left.rows.any (fun l => joinKeyEq (cell l lkey) (cell r rkey'))))
  ⟨left.cols ++ rcols, leftPart ++ rightOnly⟩

/-- `_initialize_default_admin_fields`. -/
def _initialize_default_admin_fields (df : Df) (total_labs : Nat) : Df :=
  let d1 := df.setCol "Attendance" (.vstr "{}")
  let d2 := (List.range total_labs).foldl
    (fun d i => d.setCol ("Assignment " ++ toString (i + 1) ++ " Grade") (.vstr "")) d1
  d2.setCol "Teacher Evaluation" (.vstr "")

/-- Row-wise `fillna` with a constant on a column (created as all-null
first when absent). -/
def Df.fillnaCol (df : Df) (c : String) (v : PyVal) : Df :=
  ⟨df.cols, df.rows.map (fun r => if cell r c == .vnone then dset r c v else r)⟩

/-- `merge_with_admin_logs`. -/
def merge_with_admin_logs (merged admin : Df) (total_labs : Nat) : Except String Df :=
  if merged.isEmptyDf then .ok ⟨[], []⟩
  else
    match _find_email_column merged with
    | none => .error "ValueError: Merged data must have an Email Address column"
    | some merged_email_col =>
      let admin_email_col := _find_email_column admin
      let assignment_columns := (List.range total_labs).map
        (fun i => "Assignment " ++ toString (i + 1) ++ " Grade")
      if admin.isEmptyDf || admin_email_col.isNone then
        .ok (_initialize_default_admin_fields merged total_labs)
      else
        let final0 := outerMerge merged admin merged_email_col (admin_email_col.getD "")
        -- Coalesce Name
        let final1 :=
          if final0.cols.contains "Name" && final0.cols.contains "Name_admin" then
            ⟨final0.cols, final0.rows.map (fun r =>
              if cell r "Name" == .vnone then dset r "Name" (cell r "Name_admin") else r)⟩
          else if !final0.cols.contains "Name" && final0.cols.contains "Name_admin" then
            final0.setColWith "Name" (fun r => cell r "Name_admin")
          else final0
        -- Coalesce Payment Status (admin wins when non-null, default "Unpaid")
        let final2 :=
          if final1.cols.contains "Payment Status_admin" then
            (final1.setColWith "Payment Status" (fun r =>
              if cell r "Payment Status_admin" != .vnone then cell r "Payment Status_admin"
              else cell r "Payment Status")).fillnaCol "Payment Status" (.vstr "Unpaid")
          else if !final1.cols.contains "Payment Status" then
            final1.setCol "Payment Status" (.vstr "Unpaid")
          else final1.fillnaCol "Payment Status" (.vstr "Unpaid")
        -- Payment Comment from admin, empty-string default
        let final3 :=
          if final2.cols.contains "Payment Comment_admin" then
            final2.setColWith "Payment Comment" (fun r =>
              if cell r "Payment Comment_admin" == .vnone then .vstr ""
              else cell r "Payment Comment_admin")
          else if !final2.cols.contains "Payment Comment" then
            final2.setCol "Payment Comment" (.vstr "")
          else final2
        -- Teacher Evaluation (admin wins)
        let final4 :=
          if final3.cols.contains "Teacher Evaluation"
              && final3.cols.contains "Teacher Evaluation_admin" then
            ⟨final3.cols, final3.rows.map (fun r =>
              if cell r "Teacher Evaluation_admin" != .vnone then
                dset r "Teacher Evaluation" (cell r "Teacher Evaluation_admin")
              else r)⟩
          else if final3.cols.contains "Teacher Evaluation_admin" then
            final3.setColWith "Teacher Evaluation" (fun r => cell r "Teacher Evaluation_admin")
          else if !final3.cols.contains "Teacher Evaluation" then
            final3.setCol "Teacher Evaluation" .vnone
          else final3
        -- Defaults for admin columns
        let adminCols := "Attendance" :: assignment_columns ++ ["Teacher Evaluation"]
        let final5 := adminCols.foldl (fun d col =>
          let d1 := if d.cols.contains col then d else d.setCol col .vnone
          if col == "Attendance" then d1.fillnaCol col (.vstr "{}")
          else if strContains col "Grade" then d1.fillnaCol col (.vstr "")
          else if col == "Teacher Evaluation" then d1.fillnaCol col (.vstr "")
          else d1) final4
        -- Drop the _admin columns
        let adminSuffixed := final5.cols.filter (fun c => c.endsWith "_admin")
        let final6 := adminSuffixed.foldl Df.dropCol final5
        let final7 :=
          if final6.cols.contains "Payment Comment" then final6
          else final6.setCol "Payment Comment" (.vstr "")
        .ok final7

/-- The normalised email used by the deduplication step of
`get_all_students`
(`final_df["Email Address"].astype(str).str.strip().str.lower()`). -/
def dedupNormEmail (r : PyDict) : String :=
  strLower (strStrip (pyStr (cell r "Email Address")))

/-- Column-wise coalesce of one duplicate group: for every column the
last non-null value, else `NA`. -/
def coalesceGroup (cols : List String) (rows : List PyDict) : PyDict :=
  cols.map (fun c =>
    (c, match rows.reverse.find? (fun r => cell r c != .vnone) with
        | some r => cell r c
        | none => .vnone))

/-- The deduplication step of `get_all_students`: group the merged frame
by normalised email (group keys sorted, as pandas `groupby` does) and
coalesce each group column-wise; frames without an `Email Address`
column are left alone. -/
def dedup_students (df : Df) : Df :=
  if df.cols.contains "Email Address" then
    let keys := (df.rows.map dedupNormEmail).dedup.mergeSort (fun a b => a ≤ b)
    ⟨df.cols, keys.map (fun k =>
      coalesceGroup df.cols (df.rows.filter (fun r => dedupNormEmail r == k)))⟩
  else df

theorem bne_vnone_iff (v : PyVal) : (v != PyVal.vnone) = true ↔ v ≠ .vnone := by
  cases v <;> simp [bne, BEq.beq, PyVal.beq]

theorem cell_coalesceGroup {cols : List String} {rows : List PyDict} {c : String}
    (hc : cols.contains c = true) :
    cell (coalesceGroup cols rows) c
      = match rows.reverse.find? (fun r => cell r c != .vnone) with
        | some r => cell r c
        | none => .vnone := by
  induction cols with
  | nil => simp at hc
  | cons c0 rest ih =>
    by_cases h0 : c0 = c
    · subst h0
      simp [coalesceGroup, cell, dget, dget?, List.find?]
    · have hb : (c0 == c) = false := by simpa using h0
      have hc' : rest.contains c = true := by
        have h1 : c = c0 ∨ c ∈ rest := by simpa using hc
        rcases h1 with h1 | h1
        · exact absurd h1.symm h0
        · simpa using h1
      have htail : cell (coalesceGroup (c0 :: rest) rows) c
          = cell (coalesceGroup rest rows) c := by
        simp [coalesceGroup, cell, dget, dget?, List.find?, hb]
      rw [htail, ih hc']

/-- C2 (as stated) is false: merging Register+Survey and overlaying
admin data does not deduplicate — two survey rows whose emails normalise
to the same address (here `a@x.com` and `A@x.com `) survive as two rows
of the overlay output.  (The deduplication happens in a later step of
`get_all_students`, see the amended theorem.) -/
theorem merge_overlay_duplicate_emails :
    merge_register_survey (Df.mk [] [])
        ⟨["Email Address"],
          [[("Email Address", .vstr "a@x.com")], [("Email Address", .vstr "A@x.com ")]]⟩
      = .ok ⟨["Email Address", "Payment Status"],
          [[("Email Address", .vstr "a@x.com"), ("Payment Status", .vstr "Unpaid")],
           [("Email Address", .vstr "A@x.com "), ("Payment Status", .vstr "Unpaid")]]⟩ ∧
    merge_with_admin_logs
        ⟨["Email Address", "Payment Status"],
          [[("Email Address", .vstr "a@x.com"), ("Payment Status", .vstr "Unpaid")],
           [("Email Address", .vstr "A@x.com "), ("Payment Status", .vstr "Unpaid")]]⟩
        (Df.mk [] []) 2
      = .ok ⟨["Email Address", "Payment Status", "Attendance", "Assignment 1 Grade",
            "Assignment 2 Grade", "Teacher Evaluation"],
          [[("Email Address", .vstr "a@x.com"), ("Payment Status", .vstr "Unpaid"),
            ("Attendance", .vstr "{}"), ("Assignment 1 Grade", .vstr ""),
            ("Assignment 2 Grade", .vstr ""), ("Teacher Evaluation", .vstr "")],
           [("Email Address", .vstr "A@x.com "), ("Payment Status", .vstr "Unpaid"),
            ("Attendance", .vstr "{}"), ("Assignment 1 Grade", .vstr ""),
            ("Assignment 2 Grade", .vstr ""), ("Teacher Evaluation", .vstr "")]]⟩ ∧
    (⟨["Email Address", "Payment Status", "Attendance", "Assignment 1 Grade",
        "Assignment 2 Grade", "Teacher Evaluation"],
      [[("Email Address", .vstr "a@x.com"), ("Payment Status", .vstr "Unpaid"),
        ("Attendance", .vstr "{}"), ("Assignment 1 Grade", .vstr ""),
        ("Assignment 2 Grade", .vstr ""), ("Teacher Evaluation", .vstr "")],
       [("Email Address", .vstr "A@x.com "), ("Payment Status", .vstr "Unpaid"),
        ("Attendance", .vstr "{}"), ("Assignment 1 Grade", .vstr ""),
        ("Assignment 2 Grade", .vstr ""), ("Teacher Evaluation", .vstr "")]]⟩ : Df).rows.map
      dedupNormEmail = ["a@x.com", "a@x.com"] ∧
    ¬ (["a@x.com", "a@x.com"] : List String).Nodup :=
  ⟨rfl, rfl, rfl, by decide⟩

/-- C2 amended: one reconciled row per normalised email holds only after
the normalised-email groupby/coalesce deduplication step that
`get_all_students` runs on the merged-and-overlaid frame: for every
Register, Survey and admin input, the deduplicated frame's normalised
emails are pairwise distinct. -/
theorem reconciled_students_unique_after_dedup
    (register survey admin : Df) (total_labs : Nat) (m f : Df)
    (hm : merge_register_survey register survey = .ok m)
    (hf : merge_with_admin_logs m admin total_labs = .ok f)
    (hcol : f.cols.contains "Email Address" = true) :
    ((dedup_students f).rows.map dedupNormEmail).Nodup := by
  rw [dedup_students, if_pos hcol]
  rw [List.map_map]
  have hfix : ∀ k ∈ ((f.rows.map dedupNormEmail).dedup.mergeSort fun a b => a ≤ b),
      (dedupNormEmail ∘ fun k =>
        coalesceGroup f.cols (f.rows.filter (fun r => dedupNormEmail r == k))) k = k := by
    intro k hk
    have hkmem : k ∈ f.rows.map dedupNormEmail :=
      List.mem_dedup.mp ((List.mergeSort_perm _ _).mem_iff.mp hk)
    obtain ⟨r0, hr0, hr0k⟩ := List.mem_map.mp hkmem
    have hr0grp : r0 ∈ f.rows.filter (fun r => dedupNormEmail r == k) := by
      rw [List.mem_filter]
      exact ⟨hr0, by simp [hr0k]⟩
    have hcell := @cell_coalesceGroup f.cols
      (f.rows.filter (fun r => dedupNormEmail r == k)) "Email Address" hcol
    show dedupNormEmail (coalesceGroup f.cols
      (f.rows.filter (fun r => dedupNormEmail r == k))) = k
    rw [dedupNormEmail, hcell]
    rcases hfind : (f.rows.filter (fun r => dedupNormEmail r == k)).reverse.find?
        (fun r => cell r "Email Address" != .vnone) with _ | r1
    · have hall := List.find?_eq_none.mp hfind r0 (by rw [List.mem_reverse]; exact hr0grp)
      have h0 : cell r0 "Email Address" = .vnone := by
        by_contra hne
        exact hall ((bne_vnone_iff _).mpr hne)
      rw [← hr0k, dedupNormEmail, h0]
    · have hr1 : r1 ∈ f.rows.filter (fun r => dedupNormEmail r == k) := by
        have := List.mem_of_find?_eq_some hfind
        rw [List.mem_reverse] at this
        exact this
      have hk1 : dedupNormEmail r1 = k := by
        have := (List.mem_filter.mp hr1).2
        simpa using this
      rw [← hk1, dedupNormEmail]
  rw [List.map_congr_left hfix]
  have hnd : ((f.rows.map dedupNormEmail).dedup.mergeSort fun a b => a ≤ b).Nodup :=
    (List.mergeSort_perm (f.rows.map dedupNormEmail).dedup
      (fun a b => a ≤ b)).symm.nodup (List.nodup_dedup _)
  simpa using hnd

/-- Witness for the amended C2 at the duplicate-email inputs: the
deduplicated output has pairwise-distinct normalised emails. -/
theorem reconciled_students_unique_after_dedup_witness :
    merge_register_survey (Df.mk [] [])
        ⟨["Email Address"],
          [[("Email Address", .vstr "a@x.com")], [("Email Address", .vstr "A@x.com ")]]⟩
      = .ok ⟨["Email Address", "Payment Status"],
          [[("Email Address", .vstr "a@x.com"), ("Payment Status", .vstr "Unpaid")],
           [("Email Address", .vstr "A@x.com "), ("Payment Status", .vstr "Unpaid")]]⟩ ∧
    merge_with_admin_logs
        ⟨["Email Address", "Payment Status"],
          [[("Email Address", .vstr "a@x.com"), ("Payment Status", .vstr "Unpaid")],
           [("Email Address", .vstr "A@x.com "), ("Payment Status", .vstr "Unpaid")]]⟩
        (Df.mk [] []) 2
      = .ok ⟨["Email Address", "Payment Status", "Attendance", "Assignment 1 Grade",
            "Assignment 2 Grade", "Teacher Evaluation"],
          [[("Email Address", .vstr "a@x.com"), ("Payment Status", .vstr "Unpaid"),
            ("Attendance", .vstr "{}"), ("Assignment 1 Grade", .vstr ""),
            ("Assignment 2 Grade", .vstr ""), ("Teacher Evaluation", .vstr "")],
           [("Email Address", .vstr "A@x.com "), ("Payment Status", .vstr "Unpaid"),
            ("Attendance", .vstr "{}"), ("Assignment 1 Grade", .vstr ""),
            ("Assignment 2 Grade", .vstr ""), ("Teacher Evaluation", .vstr "")]]⟩ ∧
    ((dedup_students ⟨["Email Address", "Payment Status", "Attendance",
          "Assignment 1 Grade", "Assignment 2 Grade", "Teacher Evaluation"],
        [[("Email Address", .vstr "a@x.com"), ("Payment Status", .vstr "Unpaid"),
          ("Attendance", .vstr "{}"), ("Assignment 1 Grade", .vstr ""),
          ("Assignment 2 Grade", .vstr ""), ("Teacher Evaluation", .vstr "")],
         [("Email Address", .vstr "A@x.com "), ("Payment Status", .vstr "Unpaid"),
          ("Attendance", .vstr "{}"), ("Assignment 1 Grade", .vstr ""),
          ("Assignment 2 Grade", .vstr ""), ("Teacher Evaluation", .vstr "")]]⟩).rows.map
      dedupNormEmail).Nodup :=
  ⟨rfl, rfl,
    reconciled_students_unique_after_dedup (Df.mk [] [])
      ⟨["Email Address"],
        [[("Email Address", .vstr "a@x.com")], [("Email Address", .vstr "A@x.com ")]]⟩
      (Df.mk [] []) 2
      ⟨["Email Address", "Payment Status"],
        [[("Email Address", .vstr "a@x.com"), ("Payment Status", .vstr "Unpaid")],
         [("Email Address", .vstr "A@x.com "), ("Payment Status", .vstr "Unpaid")]]⟩
      ⟨["Email Address", "Payment Status", "Attendance", "Assignment 1 Grade",
          "Assignment 2 Grade", "Teacher Evaluation"],
        [[("Email Address", .vstr "a@x.com"), ("Payment Status", .vstr "Unpaid"),
          ("Attendance", .vstr "{}"), ("Assignment 1 Grade", .vstr ""),
          ("Assignment 2 Grade", .vstr ""), ("Teacher Evaluation", .vstr "")],
         [("Email Address", .vstr "A@x.com "), ("Payment Status", .vstr "Unpaid"),
          ("Attendance", .vstr "{}"), ("Assignment 1 Grade", .vstr ""),
          ("Assignment 2 Grade", .vstr ""), ("Teacher Evaluation", .vstr "")]]⟩
      rfl rfl rfl⟩

theorem cell_dset_same (r : PyDict) (k : String) (v : PyVal) : cell (dset r k v) k = v := by
  simp [cell, dget, dget?_dset_same]

theorem cell_dset_ne (r : PyDict) (k k' : String) (v : PyVal) (h : k' ≠ k) :
    cell (dset r k v) k' = cell r k' := by
  simp [cell, dget, dget?_dset_ne _ _ _ _ h]

theorem dget?_insertRegisterRow (df : Df) (ecol scol : Option String) (ring : PyDict)
    (row : PyDict) (k : String) :
    dget? (insertRegisterRow df ecol scol ring row) k
      = if rowIndexesKey df ecol scol row k
        then some (.vdict (paymentDataOfRow df ecol scol row))
        else dget? ring k := by
  rw [insertRegisterRow, rowIndexesKey]
  by_cases hpe : normEmailCell df.cols row ecol = ""
  · by_cases hse : normEmailCell df.cols row scol = ""
    · simp [hpe, hse]
    · by_cases hsk : normEmailCell df.cols row scol = k
      · have hk0 : ¬ k = "" := hsk ▸ hse
        simp [hpe, hse, hsk, hk0, dget?_dset_same]
      · simp [hpe, hse, hsk, dget?_dset_ne _ _ _ _ (fun h => hsk h.symm)]
  · by_cases hpk : normEmailCell df.cols row ecol = k
    · have hk0 : ¬ k = "" := hpk ▸ hpe
      by_cases hse : normEmailCell df.cols row scol = ""
      · simp [hpe, hse, hpk, hk0, dget?_dset_same]
      · by_cases hsk : normEmailCell df.cols row scol = k
        · simp [hpe, hse, hpk, hsk, hk0, dget?_dset_same]
        · simp [hpe, hse, hpk, hsk, hk0, dget?_dset_same,
            dget?_dset_ne _ _ _ _ (fun h => hsk h.symm)]
    · by_cases hse : normEmailCell df.cols row scol = ""
      · simp [hpe, hse, hpk, dget?_dset_ne _ _ _ _ (fun h => hpk h.symm)]
      · by_cases hsk : normEmailCell df.cols row scol = k
        · have hk0 : ¬ k = "" := hsk ▸ hse
          simp [hpe, hse, hpk, hsk, hk0, dget?_dset_same,
            dget?_dset_ne _ _ _ _ (fun h => hpk h.symm)]
        · simp [hpe, hse, hpk, hsk, dget?_dset_ne _ _ _ _ (fun h => hpk h.symm),
            dget?_dset_ne _ _ _ _ (fun h => hsk h.symm)]

theorem dget?_foldl_insertRegisterRow (df : Df) (ecol scol : Option String)
    (rows : List PyDict) (ring : PyDict) (k : String) :
    dget? (rows.foldl (insertRegisterRow df ecol scol) ring) k
      = match rows.reverse.find? (fun row => rowIndexesKey df ecol scol row k) with
        | some row => some (.vdict (paymentDataOfRow df ecol scol row))
        | none => dget? ring k := by
  induction rows generalizing ring with
  | nil => rfl
  | cons r rest ih =>
    rw [List.foldl_cons, ih]
    rw [List.reverse_cons, List.find?_append]
    rcases hfind : rest.reverse.find? (fun row => rowIndexesKey df ecol scol row k)
      with _ | row
    · by_cases hidx : rowIndexesKey df ecol scol r k
      · simp [Option.or, List.find?, hidx, dget?_insertRegisterRow]
      · simp [Option.or, List.find?, hidx, dget?_insertRegisterRow]
    · simp [Option.or]

theorem cell_payment_foldl (row pd : PyDict) (f : String)
    (hf : f ∈ ["Choose The Tiered Program.", "Payment Method", "Add Payment Screenshot",
        "Onboarding"]) :
    cell (["Choose The Tiered Program.", "Payment Method", "Add Payment Screenshot",
        "Onboarding"].foldl (fun r g => dset r g (dget pd g .vnone)) row) f
      = dget pd f .vnone := by
  simp only [List.foldl]
  fin_cases hf
  · rw [cell_dset_ne _ _ _ _ (by decide), cell_dset_ne _ _ _ _ (by decide),
      cell_dset_ne _ _ _ _ (by decide), cell_dset_same]
  · rw [cell_dset_ne _ _ _ _ (by decide), cell_dset_ne _ _ _ _ (by decide), cell_dset_same]
  · rw [cell_dset_ne _ _ _ _ (by decide), cell_dset_same]
  · rw [cell_dset_same]

theorem mem_foldl_recordCols {records : List PyDict} {k0 : String} :
    ∀ acc : List String, (acc.contains k0 = true ∨ ∃ r ∈ records, k0 ∈ keysOf r) →
    ((records.foldl (fun acc r => acc ++ ((keysOf r).filter (fun k => !acc.contains k)))
        acc).contains k0) = true := by
  induction records with
  | nil =>
    intro acc h
    rcases h with h | ⟨r, hr, _⟩
    · exact h
    · cases hr
  | cons r0 rest ih =>
    intro acc h
    rw [List.foldl_cons]
    apply ih
    rcases h with h | ⟨r, hr, hk⟩
    · left
      have h' : k0 ∈ acc := by simpa using h
      simp only [List.elem_eq_mem, decide_eq_true_eq]
      exact List.mem_append.mpr (Or.inl h')
    · rcases List.mem_cons.mp hr with rfl | hr'
      · left
        simp only [List.elem_eq_mem, decide_eq_true_eq]
        by_cases hacc : k0 ∈ acc
        · exact List.mem_append.mpr (Or.inl hacc)
        · refine List.mem_append.mpr (Or.inr ?_)
          rw [List.mem_filter]
          exact ⟨hk, by simpa using hacc⟩
      · exact Or.inr ⟨r, hr', hk⟩

theorem mem_recordCols {records : List PyDict} {r : PyDict} {k0 : String}
    (hr : r ∈ records) (hk : k0 ∈ keysOf r) : (recordCols records).contains k0 = true :=
  mem_foldl_recordCols [] (Or.inr ⟨r, hr, hk⟩)

theorem dget?_mem {d : PyDict} {k : String} {v : PyVal} (h : dget? d k = some v) :
    (k, v) ∈ d := by
  rw [dget?] at h
  rcases hf : d.find? (fun e => e.1 == k) with _ | e
  · rw [hf] at h; simp at h
  · rw [hf] at h
    simp only [Option.map_some', Option.some.injEq] at h
    have hmem := List.mem_of_find?_eq_some hf
    have hk := List.find?_some hf
    rw [beq_iff_eq] at hk
    have he : e = (k, v) := Prod.ext hk h
    rw [← he]
    exact hmem

/-- The key ring maps every key to the payment record of the *last*
register row that indexes it. -/
theorem key_ring_lookup_eq (df : Df) (ecol scol : Option String) (k : String) :
    dget? (_build_register_key_ring df ecol scol) k
      = (df.rows.reverse.find? (fun row => rowIndexesKey df ecol scol row k)).map
          (fun row => .vdict (paymentDataOfRow df ecol scol row)) := by
  rw [_build_register_key_ring]
  by_cases hemp : df.isEmptyDf = true
  · have hrows : df.rows = [] := by
      rcases hr : df.rows with _ | _
      · rfl
      · rw [Df.isEmptyDf, hr] at hemp; simp at hemp
    rw [if_pos hemp, hrows]
    rfl
  · rw [if_neg hemp, dget?_foldl_insertRegisterRow]
    rcases hfind : df.rows.reverse.find? (fun row => rowIndexesKey df ecol scol row k)
      with _ | row
    · simp [dget?]
    · simp

/-- A survey row whose key-ring lookup resolves to `k` receives the
payment fields of the ring's entry for `k`. -/
theorem mergeSurveyRow_fields {cols : List String} {ecol scol : Option String}
    {ring : PyDict} {row : PyDict} {k : String} {pd : PyDict}
    (hres : resolvedKey cols ecol scol ring row = some k)
    (hring : dget? ring k = some (.vdict pd)) :
    ∀ f ∈ ["Choose The Tiered Program.", "Payment Method", "Add Payment Screenshot",
        "Onboarding"],
      cell (mergeSurveyRow cols ecol scol ring row).1 f = dget pd f .vnone := by
  intro f hf
  have hne1 : f ≠ "Email Address" := by fin_cases hf <;> decide
  have hne2 : f ≠ "Student Email" := by fin_cases hf <;> decide
  have hne3 : f ≠ "Payment Status" := by fin_cases hf <;> decide
  simp only [mergeSurveyRow, hres, hring]
  rcases ecol with _ | ec
  · repeat' split
    all_goals
      simp only [cell_dset_ne _ _ _ _ hne1, cell_dset_ne _ _ _ _ hne2,
        cell_dset_ne _ _ _ _ hne3]
    all_goals exact cell_payment_foldl row pd f hf
  · repeat' split
    all_goals
      simp only [cell_dset_ne _ _ _ _ hne1, cell_dset_ne _ _ _ _ hne2,
        cell_dset_ne _ _ _ _ hne3]
    all_goals exact cell_payment_foldl row pd f hf

theorem keysOf_paymentDataOfRow (df : Df) (ecol scol : Option String) (row : PyDict) :
    keysOf (paymentDataOfRow df ecol scol row)
      = ["Choose The Tiered Program.", "Payment Method", "Add Payment Screenshot",
         "Email Address", "Student Email", "Onboarding", "_register_key"] := by
  simp [paymentDataOfRow, fieldToSourceCol, keysOf]

/-- C8: the key ring holds, for each normalised email key, exactly the
payment data of the last register row (in iteration order) indexing that
key; that entry's payment fields are what a survey row matched under the
key receives, and the entry's record is what the register-only output
carries for it. -/
theorem register_key_ring_last_write_wins :
    (∀ (df : Df) (ecol scol : Option String) (k : String),
      dget? (_build_register_key_ring df ecol scol) k
        = (df.rows.reverse.find? (fun row => rowIndexesKey df ecol scol row k)).map
            (fun row => .vdict (paymentDataOfRow df ecol scol row))) ∧
    (∀ (cols : List String) (ecol scol : Option String) (ring : PyDict) (row : PyDict)
        (k : String) (pd : PyDict),
      resolvedKey cols ecol scol ring row = some k →
      dget? ring k = some (.vdict pd) →
      ∀ f ∈ ["Choose The Tiered Program.", "Payment Method", "Add Payment Screenshot",
          "Onboarding"],
        cell (mergeSurveyRow cols ecol scol ring row).1 f = dget pd f .vnone) ∧
    (∀ (df : Df) (ecol scol : Option String) (k : String) (pd : PyDict),
      dget? (_build_register_key_ring df ecol scol) k = some (.vdict pd) →
      ∃ r ∈ (_process_register_only df ecol scol).rows,
        ∀ f ∈ ["Choose The Tiered Program.", "Payment Method", "Add Payment Screenshot",
            "Email Address", "Student Email", "Onboarding", "_register_key"],
          cell r f = cell pd f) := by
  refine ⟨key_ring_lookup_eq, fun _ _ _ _ _ _ _ => mergeSurveyRow_fields, ?_⟩
  intro df ecol scol k pd hlook
  -- the looked-up record is some register row's payment record
  have hkeys : keysOf pd
      = ["Choose The Tiered Program.", "Payment Method", "Add Payment Screenshot",
         "Email Address", "Student Email", "Onboarding", "_register_key"] := by
    have h1 := hlook
    rw [key_ring_lookup_eq] at h1
    rcases hfind : df.rows.reverse.find? (fun row => rowIndexesKey df ecol scol row k)
      with _ | row
    · rw [hfind] at h1; simp at h1
    · rw [hfind] at h1
      simp only [Option.map_some', Option.some.injEq, PyVal.vdict.injEq] at h1
      rw [← h1]
      exact keysOf_paymentDataOfRow df ecol scol row
  have hmem := dget?_mem hlook
  have hne : (_build_register_key_ring df ecol scol).isEmpty = false := by
    rcases hr : _build_register_key_ring df ecol scol with _ | e
    · rw [hr] at hlook; simp [dget?] at hlook
    · rfl
  have hrec : pd ∈ (_build_register_key_ring df ecol scol).map
      (fun e => match e.2 with | .vdict pd0 => pd0 | _ => []) :=
    List.mem_map.mpr ⟨(k, .vdict pd), hmem, rfl⟩
  have hsc : (recordCols ((_build_register_key_ring df ecol scol).map
      (fun e => match e.2 with | .vdict pd0 => pd0 | _ => []))).contains
        "Add Payment Screenshot" = true :=
    mem_recordCols hrec (by rw [hkeys]; decide)
  simp only [_process_register_only, hne, Bool.false_eq_true, if_false, hsc, if_true,
    Df.setColWith, Df.setCol]
  refine ⟨_, List.mem_map.mpr ⟨_, List.mem_map.mpr ⟨pd, hrec, rfl⟩, rfl⟩, ?_⟩
  intro f hf
  have hne1 : f ≠ "Has Survey Response" := by fin_cases hf <;> decide
  have hne2 : f ≠ "Payment Status" := by fin_cases hf <;> decide
  rw [cell_dset_ne _ _ _ _ hne1, cell_dset_ne _ _ _ _ hne2]

def c8row2 : PyDict :=
  [("Email Address", .vstr "A@x.com "), ("Add Payment Screenshot", .vstr "s2")]

def c8df : Df :=
  ⟨["Email Address", "Add Payment Screenshot"],
   [[("Email Address", .vstr "a@x.com"), ("Add Payment Screenshot", .vstr "s1")],
    c8row2]⟩

def c8pd : PyDict := paymentDataOfRow c8df (some "Email Address") none c8row2

def c8ring : PyDict := _build_register_key_ring c8df (some "Email Address") none

def c8srow : PyDict := [("Email Address", .vstr "a@x.com")]

theorem register_key_ring_last_write_wins_witness :
    dget? c8ring "a@x.com" = some (.vdict c8pd) ∧
    cell (mergeSurveyRow ["Email Address"] (some "Email Address") none c8ring c8srow).1
        "Add Payment Screenshot" = dget c8pd "Add Payment Screenshot" .vnone ∧
    ∃ r ∈ (_process_register_only c8df (some "Email Address") none).rows,
      ∀ f ∈ ["Choose The Tiered Program.", "Payment Method", "Add Payment Screenshot",
          "Email Address", "Student Email", "Onboarding", "_register_key"],
        cell r f = cell c8pd f := by
  refine ⟨?_, ?_, ?_⟩
  · show dget? (_build_register_key_ring c8df (some "Email Address") none) "a@x.com"
        = some (.vdict c8pd)
    rw [register_key_ring_last_write_wins.1 c8df (some "Email Address") none "a@x.com"]
    rfl
  · exact register_key_ring_last_write_wins.2.1 ["Email Address"] (some "Email Address")
      none c8ring c8srow "a@x.com" c8pd rfl rfl "Add Payment Screenshot" (by decide)
  · exact register_key_ring_last_write_wins.2.2 c8df (some "Email Address") none
      "a@x.com" c8pd rfl

/-!
## Assignment-grade flattening
(`get_admin_data_from_firestore`, backend/sheets/google_sheets_manager.py)
-/

/-- `f"Assignment {assignment_num} Grade"`. -/
def assignmentField (n : Nat) : String := "Assignment " ++ toString n ++ " Grade"

/-- `str(grade_value) if grade_value else ''`. -/
def gradeStr (v : PyVal) : String := if pyTruthy v then pyStr v else ""

/-- The `for lab_num in range(1, lab_count + 1)` loop over one module's
grades: emits one flattened field per lab slot, advancing the counter. -/
def flattenLabsAux (mg : PyDict) (n lab : Nat) : Nat → List (String × PyVal)
  | 0 => []
  | Nat.succ k =>
    (assignmentField n, .vstr (gradeStr (dget mg (labKey lab) (.vstr ""))))
      :: flattenLabsAux mg (n + 1) (lab + 1) k

/-- The `for module_id, lab_count in modules.items()` loop: a module
missing from the course's grades (or whose grades are not a dict) still
advances the running counter by its lab count. -/
def flattenModules (cg : PyDict) : List (String × Nat) → Nat → List (String × PyVal) × Nat
  | [], n => ([], n)
  | (m, lc) :: rest, n =>
    match dget? cg m with
    | some (.vdict mg) =>
      let fields := flattenLabsAux mg n 1 lc
      let step := flattenModules cg rest (n + lc)
      (fields ++ step.1, step.2)
    | _ => flattenModules cg rest (n + lc)

/-- The `for course_id, modules in course_module_structure.items()` loop:
`if course_id not in assignment_grades: continue` skips a missing course
(and a course whose grades are not a dict) without touching the counter. -/
def flattenCourses (grades : PyDict) : CourseStructure → Nat → List (String × PyVal) × Nat
  | [], n => ([], n)
  | (c, mods) :: rest, n =>
    match dget? grades c with
    | some (.vdict cg) =>
      let step := flattenModules cg mods n
      let more := flattenCourses grades rest step.2
      (step.1 ++ more.1, more.2)
    | _ => flattenCourses grades rest n

/-- The new-format flattening of one student's `assignmentGrades`,
starting from `assignment_num = 1`. -/
def flatten_assignment_grades (cms : CourseStructure) (grades : PyDict) :
    List (String × PyVal) :=
  (flattenCourses grades cms 1).1

/-- The two-course structure and the two students of the C5 scenario. -/
def c5S : CourseStructure := [("c1", [("m1", 1)]), ("c2", [("m2", 1)])]

def c5full : PyDict :=
  [("c1", .vdict [("m1", .vdict [("lab1", .vstr "A")])]),
   ("c2", .vdict [("m2", .vdict [("lab1", .vstr "B")])])]

def c5part : PyDict :=
  [("c2", .vdict [("m2", .vdict [("lab1", .vstr "B")])])]

/-- C5: the flattening walk does NOT advance the assignment counter for a
course missing from the student's stored grades — for the structure
`{c1: {m1: 1}, c2: {m2: 1}}` a full student emits the `c2.m2.lab1` slot as
"Assignment 2 Grade", but a student missing `c1` emits the very same slot
as "Assignment 1 Grade", contradicting the claimed stable numbering. -/
theorem flatten_counter_skips_missing_course :
    flatten_assignment_grades c5S c5full
        = [("Assignment 1 Grade", .vstr "A"), ("Assignment 2 Grade", .vstr "B")] ∧
    flatten_assignment_grades c5S c5part
        = [("Assignment 1 Grade", .vstr "B")] := ⟨rfl, rfl⟩

/-!
## Attendance JSON formatting
(`format_attendance` / `format_attendance_to_string`,
backend/sheets/sheets_attendance.py)

`json.dumps` with its CPython defaults (`ensure_ascii=True`, separators
`", "` and `": "`) and `json.loads` restricted to the attendance grammar
the module round-trips: an object with string keys and boolean values.
-/

/-- Lowercase hex digit, as used by `'\\u%04x'`. -/
def hexDigit (n : Nat) : Char :=
  if n < 10 then Char.ofNat (48 + n) else Char.ofNat (87 + n)

/-- A `\\uXXXX` escape for one UTF-16 code unit. -/
def uEscape (n : Nat) : List Char :=
  ['\\', 'u', hexDigit (n / 4096 % 16), hexDigit (n / 256 % 16),
   hexDigit (n / 16 % 16), hexDigit (n % 16)]

/-- CPython `py_encode_basestring_ascii`: printable ASCII passes through,
`"` `\\` and the five short escapes are backslashed, every other code
point becomes `\\uXXXX` (a surrogate pair above U+FFFF). -/
def jsonEscapeChar (c : Char) : List Char :=
  if c = '"' then ['\\', '"']
  else if c = '\\' then ['\\', '\\']
  else if c.toNat = 8 then ['\\', 'b']
  else if c.toNat = 9 then ['\\', 't']
  else if c.toNat = 10 then ['\\', 'n']
  else if c.toNat = 12 then ['\\', 'f']
  else if c.toNat = 13 then ['\\', 'r']
  else if c.toNat < 32 ∨ 126 < c.toNat then
    if c.toNat < 65536 then uEscape c.toNat
    else uEscape (55296 + (c.toNat - 65536) / 1024)
      ++ uEscape (56320 + (c.toNat - 65536) % 1024)
  else [c]

def escList (s : List Char) : List Char :=
  s.foldr (fun c acc => jsonEscapeChar c ++ acc) []

/-- A JSON string literal (the quotes and the escaped content). -/
def jsonQuoteChars (s : List Char) : List Char :=
  '"' :: escList s ++ ['"']

def boolChars (b : Bool) : List Char :=
  if b then ['t', 'r', 'u', 'e'] else ['f', 'a', 'l', 's', 'e']

/-- One `"key": value` item of the dumped object. -/
def jsonItem (e : String × Bool) : List Char :=
  jsonQuoteChars e.1.data ++ (':' :: ' ' :: boolChars e.2)

/-- The items joined by `", "`. -/
def jsonItems : List (String × Bool) → List Char
  | [] => []
  | [e] => jsonItem e
  | e :: rest => jsonItem e ++ (',' :: ' ' :: jsonItems rest)

/-- `json.dumps` of an attendance dictionary. -/
def jsonDumps (d : List (String × Bool)) : String :=
  ⟨'{' :: (jsonItems d ++ ['}'])⟩

/-- JSON whitespace. -/
def isJsonWs (c : Char) : Bool :=
  c = ' ' || c = '\t' || c = '\n' || c = '\r'

def skipWs : List Char → List Char
  | [] => []
  | c :: cs => if isJsonWs c then skipWs cs else c :: cs

def hexVal (c : Char) : Option Nat :=
  if 48 ≤ c.toNat ∧ c.toNat ≤ 57 then some (c.toNat - 48)
  else if 97 ≤ c.toNat ∧ c.toNat ≤ 102 then some (c.toNat - 87)
  else if 65 ≤ c.toNat ∧ c.toNat ≤ 70 then some (c.toNat - 55)
  else none

def parse4Hex : List Char → Option (Nat × List Char)
  | a :: b :: c :: d :: rest =>
    match hexVal a, hexVal b, hexVal c, hexVal d with
    | some x, some y, some z, some w => some (x * 4096 + y * 256 + z * 16 + w, rest)
    | _, _, _, _ => none
  | _ => none

/-- Decode one `\\uXXXX` escape after the `\\u` (combining a surrogate
pair into its code point; a decoded lone surrogate is not a Unicode scalar
and is out of scope of this grammar). -/
def decodeU (rest2 : List Char) : Option (Char × List Char) :=
  match parse4Hex rest2 with
  | none => none
  | some (n, rest3) =>
    if 55296 ≤ n ∧ n ≤ 56319 then
      match rest3 with
      | b1 :: b2 :: rest4 =>
        if b1 = '\\' ∧ b2 = 'u' then
          match parse4Hex rest4 with
          | some (m, rest5) =>
            if 56320 ≤ m ∧ m ≤ 57343 then
              some (Char.ofNat (65536 + (n - 55296) * 1024 + (m - 56320)), rest5)
            else none
          | none => none
        else none
      | _ => none
    else if 56320 ≤ n ∧ n ≤ 57343 then none
    else some (Char.ofNat n, rest3)

/-- `py_scanstring` after the opening quote: the decoded content and the
input remaining after the closing quote.  Surrogate escapes must pair up
(a decoded lone surrogate is not a Unicode scalar and is out of scope of
this grammar). -/
def parseStringBody : Nat → List Char → Option (List Char × List Char)
  | 0, _ => none
  | _ + 1, [] => none
  | fuel + 1, c :: rest =>
    if c = '"' then some ([], rest)
    else if c = '\\' then
      match rest with
      | [] => none
      | e :: rest2 =>
        if e = '"' then (parseStringBody fuel rest2).map (fun p => ('"' :: p.1, p.2))
        else if e = '\\' then (parseStringBody fuel rest2).map (fun p => ('\\' :: p.1, p.2))
        else if e = '/' then (parseStringBody fuel rest2).map (fun p => ('/' :: p.1, p.2))
        else if e = 'b' then
          (parseStringBody fuel rest2).map (fun p => (Char.ofNat 8 :: p.1, p.2))
        else if e = 't' then
          (parseStringBody fuel rest2).map (fun p => (Char.ofNat 9 :: p.1, p.2))
        else if e = 'n' then
          (parseStringBody fuel rest2).map (fun p => (Char.ofNat 10 :: p.1, p.2))
        else if e = 'f' then
          (parseStringBody fuel rest2).map (fun p => (Char.ofNat 12 :: p.1, p.2))
        else if e = 'r' then
          (parseStringBody fuel rest2).map (fun p => (Char.ofNat 13 :: p.1, p.2))
        else if e = 'u' then
          match decodeU rest2 with
          | none => none
          | some (ch, rest3) =>
            (parseStringBody fuel rest3).map (fun p => (ch :: p.1, p.2))
        else none
    else if c.toNat < 32 then none
    else (parseStringBody fuel rest).map (fun p => (c :: p.1, p.2))

def parseBool : List Char → Option (Bool × List Char)
  | 't' :: 'r' :: 'u' :: 'e' :: rest => some (true, rest)
  | 'f' :: 'a' :: 'l' :: 's' :: 'e' :: rest => some (false, rest)
  | _ => none

/-- The object-member loop: called on input beginning at a key's opening
quote, returns the raw `(key, value)` list in encounter order and the
input remaining after the closing `}`. -/
def parsePairs : Nat → List Char → Option (List (String × Bool) × List Char)
  | 0, _ => none
  | fuel + 1, cs =>
    match cs with
    | '"' :: cs1 =>
      match parseStringBody (cs1.length + 1) cs1 with
      | none => none
      | some (key, cs2) =>
        match skipWs cs2 with
        | ':' :: cs3 =>
          match parseBool (skipWs cs3) with
          | none => none
          | some (b, cs4) =>
            match skipWs cs4 with
            | ',' :: cs5 =>
              (parsePairs fuel (skipWs cs5)).map (fun p => ((⟨key⟩, b) :: p.1, p.2))
            | '}' :: cs5 => some ([(⟨key⟩, b)], cs5)
            | _ => none
        | _ => none
    | _ => none

/-- Python-dict assembly of parsed members: first position kept, last
value wins. -/
def dictInsertB (d : List (String × Bool)) (k : String) (v : Bool) :
    List (String × Bool) :=
  if d.any (fun e => e.1 == k) then d.map (fun e => if e.1 == k then (k, v) else e)
  else d ++ [(k, v)]

/-- `json.loads` on the attendance grammar: an object with string keys
and boolean values, surrounded by optional whitespace; `none` is a
`JSONDecodeError`. -/
def jsonLoads (s : String) : Option (List (String × Bool)) :=
  match skipWs s.data with
  | '{' :: cs1 =>
    match skipWs cs1 with
    | '}' :: cs2 => if (skipWs cs2).isEmpty then some [] else none
    | cs2 =>
      match parsePairs (cs2.length + 1) cs2 with
      | some (pairs, rest) =>
        if (skipWs rest).isEmpty then
          some (pairs.foldl (fun d e => dictInsertB d e.1 e.2) [])
        else none
      | none => none
  | _ => none

/-- The attendance cell as read from the sheet/Firestore: NaN/None, an
already-parsed dict, or a JSON string. -/
inductive AttCell where
  | nullv
  | strv (s : String)
  | dictv (d : List (String × Bool))

/-- `format_attendance`. -/
def format_attendance : AttCell → List (String × Bool)
  | .nullv => []
  | .dictv d => d
  | .strv s => if s = "" then [] else (jsonLoads s).getD []

/-- `format_attendance_to_string`. -/
def format_attendance_to_string (d : List (String × Bool)) : String :=
  if d.isEmpty then "{}" else jsonDumps d

theorem char_not_surrogate (c : Char) :
    c.toNat < 55296 ∨ (57344 ≤ c.toNat ∧ c.toNat < 1114112) := by
  rcases c.valid with h | h
  · left
    exact_mod_cast h
  · right
    exact ⟨by exact_mod_cast h.1, by exact_mod_cast h.2⟩

theorem hexVal_hexDigit (k : Nat) (h : k < 16) : hexVal (hexDigit k) = some k := by
  interval_cases k <;> decide

theorem parse4Hex_digits (n : Nat) (h : n < 65536) (cs : List Char) :
    parse4Hex (hexDigit (n / 4096 % 16) :: hexDigit (n / 256 % 16)
      :: hexDigit (n / 16 % 16) :: hexDigit (n % 16) :: cs) = some (n, cs) := by
  have h1 := hexVal_hexDigit (n / 4096 % 16) (by omega)
  have h2 := hexVal_hexDigit (n / 256 % 16) (by omega)
  have h3 := hexVal_hexDigit (n / 16 % 16) (by omega)
  have h4 := hexVal_hexDigit (n % 16) (by omega)
  have harith : n / 4096 % 16 * 4096 + n / 256 % 16 * 256 + n / 16 % 16 * 16 + n % 16
      = n := by omega
  simp only [parse4Hex, h1, h2, h3, h4]
  rw [harith]

theorem psb_uq (fuel : Nat) (r : List Char) :
    parseStringBody (fuel + 1) ('\\' :: 'u' :: r)
      = match decodeU r with
        | none => none
        | some (ch, rest3) =>
          (parseStringBody fuel rest3).map (fun p => (ch :: p.1, p.2)) :=
  rfl

theorem decodeU_bmp (n : Nat) (cs : List Char)
    (hlt : n < 65536) (hns : n < 55296 ∨ 57343 < n) :
    decodeU (hexDigit (n / 4096 % 16) :: hexDigit (n / 256 % 16)
      :: hexDigit (n / 16 % 16) :: hexDigit (n % 16) :: cs)
      = some (Char.ofNat n, cs) := by
  have h4 := parse4Hex_digits n hlt cs
  have hn1 : ¬ (55296 ≤ n ∧ n ≤ 56319) := by omega
  have hn2 : ¬ (56320 ≤ n ∧ n ≤ 57343) := by omega
  unfold decodeU
  rw [h4]
  simp only [hn1, hn2, if_false]

theorem decodeU_pair_gen (hi lo : Nat) (d1 d2 d3 d4 e1 e2 e3 e4 : Char) (cs : List Char)
    (h4a : parse4Hex (d1 :: d2 :: d3 :: d4 :: ('\\' :: 'u' :: e1 :: e2 :: e3 :: e4 :: cs))
      = some (hi, '\\' :: 'u' :: e1 :: e2 :: e3 :: e4 :: cs))
    (h4b : parse4Hex (e1 :: e2 :: e3 :: e4 :: cs) = some (lo, cs))
    (hs1 : 55296 ≤ hi ∧ hi ≤ 56319) (hs2 : 56320 ≤ lo ∧ lo ≤ 57343) :
    decodeU (d1 :: d2 :: d3 :: d4 :: ('\\' :: 'u' :: e1 :: e2 :: e3 :: e4 :: cs))
      = some (Char.ofNat (65536 + (hi - 55296) * 1024 + (lo - 56320)), cs) := by
  unfold decodeU
  rw [h4a]
  simp only [hs1.1, hs1.2, and_self, ite_true]
  rw [h4b]
  simp only [hs2.1, hs2.2, and_self, ite_true]

theorem decodeU_pair (n : Nat) (cs : List Char)
    (hge : 65536 ≤ n) (hlt : n < 1114112) :
    decodeU (hexDigit ((55296 + (n - 65536) / 1024) / 4096 % 16)
      :: hexDigit ((55296 + (n - 65536) / 1024) / 256 % 16)
      :: hexDigit ((55296 + (n - 65536) / 1024) / 16 % 16)
      :: hexDigit ((55296 + (n - 65536) / 1024) % 16)
      :: '\\' :: 'u' :: hexDigit ((56320 + (n - 65536) % 1024) / 4096 % 16)
      :: hexDigit ((56320 + (n - 65536) % 1024) / 256 % 16)
      :: hexDigit ((56320 + (n - 65536) % 1024) / 16 % 16)
      :: hexDigit ((56320 + (n - 65536) % 1024) % 16) :: cs)
      = some (Char.ofNat n, cs) := by
  have hhi : 55296 + (n - 65536) / 1024 < 65536 := by omega
  have hlo : 56320 + (n - 65536) % 1024 < 65536 := by omega
  have h4a := parse4Hex_digits (55296 + (n - 65536) / 1024) hhi
      ('\\' :: 'u' :: hexDigit ((56320 + (n - 65536) % 1024) / 4096 % 16)
        :: hexDigit ((56320 + (n - 65536) % 1024) / 256 % 16)
        :: hexDigit ((56320 + (n - 65536) % 1024) / 16 % 16)
        :: hexDigit ((56320 + (n - 65536) % 1024) % 16) :: cs)
  have h4b := parse4Hex_digits (56320 + (n - 65536) % 1024) hlo cs
  have hs1 : 55296 ≤ 55296 + (n - 65536) / 1024 ∧ 55296 + (n - 65536) / 1024 ≤ 56319 := by
    omega
  have hs2 : 56320 ≤ 56320 + (n - 65536) % 1024 ∧ 56320 + (n - 65536) % 1024 ≤ 57343 := by
    omega
  have hcomb : 65536 + (55296 + (n - 65536) / 1024 - 55296) * 1024
      + (56320 + (n - 65536) % 1024 - 56320) = n := by omega
  have h := decodeU_pair_gen (55296 + (n - 65536) / 1024) (56320 + (n - 65536) % 1024)
      (hexDigit ((55296 + (n - 65536) / 1024) / 4096 % 16))
      (hexDigit ((55296 + (n - 65536) / 1024) / 256 % 16))
      (hexDigit ((55296 + (n - 65536) / 1024) / 16 % 16))
      (hexDigit ((55296 + (n - 65536) / 1024) % 16))
      (hexDigit ((56320 + (n - 65536) % 1024) / 4096 % 16))
      (hexDigit ((56320 + (n - 65536) % 1024) / 256 % 16))
      (hexDigit ((56320 + (n - 65536) % 1024) / 16 % 16))
      (hexDigit ((56320 + (n - 65536) % 1024) % 16))
      cs h4a h4b hs1 hs2
  rw [hcomb] at h
  exact h

theorem psb_uescape_bmp (fuel : Nat) (n : Nat) (cs : List Char)
    (hlt : n < 65536) (hns : n < 55296 ∨ 57343 < n) :
    parseStringBody (fuel + 1) (uEscape n ++ cs)
      = (parseStringBody fuel cs).map (fun p => (Char.ofNat n :: p.1, p.2)) := by
  simp only [uEscape, List.cons_append, List.nil_append]
  rw [psb_uq, decodeU_bmp n cs hlt hns]

theorem psb_uescape_pair (fuel : Nat) (n : Nat) (cs : List Char)
    (hge : 65536 ≤ n) (hlt : n < 1114112) :
    parseStringBody (fuel + 1)
        (uEscape (55296 + (n - 65536) / 1024) ++ (uEscape (56320 + (n - 65536) % 1024) ++ cs))
      = (parseStringBody fuel cs).map (fun p => (Char.ofNat n :: p.1, p.2)) := by
  simp only [uEscape, List.cons_append, List.nil_append]
  rw [psb_uq, decodeU_pair n cs hge hlt]

theorem parseStringBody_escChar (c : Char) (cs : List Char) (fuel : Nat) :
    parseStringBody (fuel + 1) (jsonEscapeChar c ++ cs)
      = (parseStringBody fuel cs).map (fun p => (c :: p.1, p.2)) := by
  by_cases h1 : c = '"'
  · subst h1; rfl
  by_cases h2 : c = '\\'
  · subst h2; rfl
  by_cases h3 : c.toNat = 8
  · have hesc : jsonEscapeChar c = ['\\', 'b'] := by
      rw [jsonEscapeChar, if_neg h1, if_neg h2, if_pos h3]
    have hc : Char.ofNat 8 = c := by rw [← h3, Char.ofNat_toNat]
    rw [hesc]
    show (parseStringBody fuel cs).map (fun p => (Char.ofNat 8 :: p.1, p.2)) = _
    rw [hc]
  by_cases h4 : c.toNat = 9
  · have hesc : jsonEscapeChar c = ['\\', 't'] := by
      rw [jsonEscapeChar, if_neg h1, if_neg h2, if_neg h3, if_pos h4]
    have hc : Char.ofNat 9 = c := by rw [← h4, Char.ofNat_toNat]
    rw [hesc]
    show (parseStringBody fuel cs).map (fun p => (Char.ofNat 9 :: p.1, p.2)) = _
    rw [hc]
  by_cases h5 : c.toNat = 10
  · have hesc : jsonEscapeChar c = ['\\', 'n'] := by
      rw [jsonEscapeChar, if_neg h1, if_neg h2, if_neg h3, if_neg h4, if_pos h5]
    have hc : Char.ofNat 10 = c := by rw [← h5, Char.ofNat_toNat]
    rw [hesc]
    show (parseStringBody fuel cs).map (fun p => (Char.ofNat 10 :: p.1, p.2)) = _
    rw [hc]
  by_cases h6 : c.toNat = 12
  · have hesc : jsonEscapeChar c = ['\\', 'f'] := by
      rw [jsonEscapeChar, if_neg h1, if_neg h2, if_neg h3, if_neg h4, if_neg h5, if_pos h6]
    have hc : Char.ofNat 12 = c := by rw [← h6, Char.ofNat_toNat]
    rw [hesc]
    show (parseStringBody fuel cs).map (fun p => (Char.ofNat 12 :: p.1, p.2)) = _
    rw [hc]
  by_cases h7 : c.toNat = 13
  · have hesc : jsonEscapeChar c = ['\\', 'r'] := by
      rw [jsonEscapeChar, if_neg h1, if_neg h2, if_neg h3, if_neg h4, if_neg h5, if_neg h6,
        if_pos h7]
    have hc : Char.ofNat 13 = c := by rw [← h7, Char.ofNat_toNat]
    rw [hesc]
    show (parseStringBody fuel cs).map (fun p => (Char.ofNat 13 :: p.1, p.2)) = _
    rw [hc]
  by_cases h8 : c.toNat < 32 ∨ 126 < c.toNat
  · by_cases h9 : c.toNat < 65536
    · have hesc : jsonEscapeChar c = uEscape c.toNat := by
        rw [jsonEscapeChar, if_neg h1, if_neg h2, if_neg h3, if_neg h4, if_neg h5,
          if_neg h6, if_neg h7, if_pos h8, if_pos h9]
      have hns : c.toNat < 55296 ∨ 57343 < c.toNat := by
        rcases char_not_surrogate c with h | h
        · exact Or.inl h
        · exact Or.inr (by omega)
      rw [hesc, psb_uescape_bmp fuel c.toNat cs h9 hns, Char.ofNat_toNat]
    · have hesc : jsonEscapeChar c = uEscape (55296 + (c.toNat - 65536) / 1024)
          ++ uEscape (56320 + (c.toNat - 65536) % 1024) := by
        rw [jsonEscapeChar, if_neg h1, if_neg h2, if_neg h3, if_neg h4, if_neg h5,
          if_neg h6, if_neg h7, if_pos h8, if_neg h9]
      have hlt : c.toNat < 1114112 := by
        rcases char_not_surrogate c with h | h
        · omega
        · omega
      rw [hesc, List.append_assoc,
        psb_uescape_pair fuel c.toNat cs (by omega) hlt, Char.ofNat_toNat]
  · have hesc : jsonEscapeChar c = [c] := by
      rw [jsonEscapeChar, if_neg h1, if_neg h2, if_neg h3, if_neg h4, if_neg h5,
        if_neg h6, if_neg h7, if_neg h8]
    rw [hesc]
    show parseStringBody (fuel + 1) (c :: cs) = _
    simp only [parseStringBody]
    rw [if_neg h1, if_neg h2, if_neg (show ¬ c.toNat < 32 from fun hh => h8 (Or.inl hh))]

theorem escList_le_length (s : List Char) : s.length ≤ (escList s).length := by
  induction s with
  | nil => simp [escList]
  | cons c s ih =>
    have h1 : 1 ≤ (jsonEscapeChar c).length := by
      rw [jsonEscapeChar]
      split_ifs <;> simp [uEscape]
    have h2 : escList (c :: s) = jsonEscapeChar c ++ escList s := rfl
    rw [h2]
    simp only [List.length_cons, List.length_append]
    omega

theorem parseStringBody_escList (s : List Char) (cs : List Char) :
    ∀ fuel, s.length < fuel →
      parseStringBody fuel (escList s ++ ('"' :: cs)) = some (s, cs) := by
  induction s with
  | nil =>
    intro fuel hf
    cases fuel with
    | zero => omega
    | succ k => rfl
  | cons c s ih =>
    intro fuel hf
    cases fuel with
    | zero => omega
    | succ k =>
      have hsplit : escList (c :: s) ++ ('"' :: cs)
          = jsonEscapeChar c ++ (escList s ++ ('"' :: cs)) := by
        have h2 : escList (c :: s) = jsonEscapeChar c ++ escList s := rfl
        rw [h2, List.append_assoc]
      rw [hsplit, parseStringBody_escChar,
        ih k (by simp only [List.length_cons] at hf; omega)]
      rfl

theorem skipWs_cons (c : Char) (l : List Char) (h : isJsonWs c = false) :
    skipWs (c :: l) = c :: l := by
  simp [skipWs, h]

theorem jsonItems_cons_head (e : String × Bool) (xs : List (String × Bool)) :
    ∃ t, jsonItems (e :: xs) = '"' :: t := by
  cases xs with
  | nil =>
    refine ⟨escList e.1.data ++ ['"'] ++ (':' :: ' ' :: boolChars e.2), ?_⟩
    simp [jsonItems, jsonItem, jsonQuoteChars, List.append_assoc]
  | cons y ys =>
    refine ⟨escList e.1.data ++ ['"'] ++ (':' :: ' ' :: boolChars e.2)
      ++ (',' :: ' ' :: jsonItems (y :: ys)), ?_⟩
    simp [jsonItems, jsonItem, jsonQuoteChars, List.append_assoc]

theorem jsonItem_length_pos (e : String × Bool) : 1 ≤ (jsonItem e).length := by
  simp [jsonItem, jsonQuoteChars]

theorem jsonItems_le_length (d : List (String × Bool)) :
    d.length ≤ (jsonItems d).length := by
  induction d with
  | nil => simp [jsonItems]
  | cons e rest ih =>
    cases rest with
    | nil =>
      have := jsonItem_length_pos e
      simpa [jsonItems] using this
    | cons y ys =>
      have h1 := jsonItem_length_pos e
      have h2 : jsonItems (e :: y :: ys) = jsonItem e ++ (',' :: ' ' :: jsonItems (y :: ys)) :=
        rfl
      rw [h2]
      simp only [List.length_cons, List.length_append] at ih ⊢
      omega

theorem parsePairs_item (e : String × Bool) (T : List Char) (k : Nat) :
    parsePairs (k + 1) (jsonItem e ++ T)
      = (match skipWs T with
         | ',' :: cs5 => (parsePairs k (skipWs cs5)).map (fun p => (e :: p.1, p.2))
         | '}' :: cs5 => some ([e], cs5)
         | _ => none) := by
  have hshape : jsonItem e ++ T
      = '"' :: (escList e.1.data ++ ('"' :: (':' :: ' ' :: (boolChars e.2 ++ T)))) := by
    simp [jsonItem, jsonQuoteChars, List.append_assoc]
  rw [hshape]
  simp only [parsePairs]
  rw [parseStringBody_escList e.1.data (':' :: ' ' :: (boolChars e.2 ++ T)) _
      (by
        have h1 := escList_le_length e.1.data
        simp only [List.length_append, List.length_cons]
        omega)]
  have hbool : parseBool (skipWs (' ' :: (boolChars e.2 ++ T))) = some (e.2, T) := by
    cases hb : e.2 <;> simp [skipWs, boolChars, isJsonWs, parseBool]
  simp only [skipWs_cons ':' (' ' :: (boolChars e.2 ++ T)) (by decide), hbool]

theorem parsePairs_jsonItems (d : List (String × Bool)) :
    ∀ (cs : List Char) (fuel : Nat), d ≠ [] → d.length ≤ fuel →
      parsePairs fuel (jsonItems d ++ ('}' :: cs)) = some (d, cs) := by
  induction d with
  | nil => intro cs fuel h _; exact absurd rfl h
  | cons e rest ih =>
    intro cs fuel _ hf
    cases fuel with
    | zero => simp at hf
    | succ k =>
      cases rest with
      | nil =>
        rw [show jsonItems [e] = jsonItem e from rfl, parsePairs_item e ('}' :: cs) k,
          skipWs_cons '}' cs (by decide)]
        rfl
      | cons y ys =>
        have hshape : jsonItems (e :: y :: ys) ++ ('}' :: cs)
            = jsonItem e ++ (',' :: (' ' :: (jsonItems (y :: ys) ++ ('}' :: cs)))) := by
          rw [show jsonItems (e :: y :: ys)
              = jsonItem e ++ (',' :: ' ' :: jsonItems (y :: ys)) from rfl,
            List.append_assoc]
          simp [List.cons_append]
        have hskip : skipWs (jsonItems (y :: ys) ++ ('}' :: cs))
            = jsonItems (y :: ys) ++ ('}' :: cs) := by
          obtain ⟨t, ht⟩ := jsonItems_cons_head y ys
          rw [ht, List.cons_append]
          exact skipWs_cons _ _ (by decide)
        have hsk2 : skipWs (' ' :: (jsonItems (y :: ys) ++ ('}' :: cs)))
            = jsonItems (y :: ys) ++ ('}' :: cs) := by
          rw [show skipWs (' ' :: (jsonItems (y :: ys) ++ ('}' :: cs)))
              = skipWs (jsonItems (y :: ys) ++ ('}' :: cs)) from rfl, hskip]
        rw [hshape, parsePairs_item e _ k]
        simp only [skipWs_cons ',' (' ' :: (jsonItems (y :: ys) ++ ('}' :: cs))) (by decide),
          hsk2, ih cs k (by simp) (by simp only [List.length_cons] at hf ⊢; omega)]
        rfl

theorem jsonLoads_dumps (d : List (String × Bool)) :
    jsonLoads (jsonDumps d)
      = some (d.foldl (fun a e => dictInsertB a e.1 e.2) []) := by
  cases d with
  | nil => rfl
  | cons e rest =>
    obtain ⟨t, ht⟩ := jsonItems_cons_head e rest
    have hdata : (jsonDumps (e :: rest)).data
        = '{' :: (jsonItems (e :: rest) ++ ['}']) := rfl
    have hskip : skipWs (jsonItems (e :: rest) ++ ['}'])
        = jsonItems (e :: rest) ++ ['}'] := by
      rw [ht, List.cons_append]
      exact skipWs_cons _ _ (by decide)
    have hlen : (e :: rest).length ≤ (jsonItems (e :: rest) ++ ['}']).length + 1 := by
      have hj := jsonItems_le_length (e :: rest)
      simp only [List.length_append, List.length_cons, List.length_nil] at hj ⊢
      omega
    have hpp := parsePairs_jsonItems (e :: rest) []
        ((jsonItems (e :: rest) ++ ['}']).length + 1) (by simp) hlen
    rw [jsonLoads, hdata]
    simp only [skipWs_cons '{' (jsonItems (e :: rest) ++ ['}']) (by decide)]
    rw [hskip, ht, List.cons_append]
    split
    · rename_i heq
      simp at heq
    · rw [← List.cons_append, ← ht, hpp]
      rfl

theorem foldl_dictInsertB (d : List (String × Bool)) :
    ∀ acc : List (String × Bool), ((acc ++ d).map Prod.fst).Nodup →
      d.foldl (fun a e => dictInsertB a e.1 e.2) acc = acc ++ d := by
  induction d with
  | nil => intro acc _; simp
  | cons e rest ih =>
    intro acc h
    have hk : acc.any (fun x => x.1 == e.1) = false := by
      rw [Bool.eq_false_iff]
      intro hc
      rw [List.any_eq_true] at hc
      obtain ⟨x, hx, hbeq⟩ := hc
      rw [beq_iff_eq] at hbeq
      have h2 : (acc.map Prod.fst ++ (e.1 :: rest.map Prod.fst)).Nodup := by
        simpa using h
      rw [List.nodup_append] at h2
      exact h2.2.2 (hbeq ▸ List.mem_map_of_mem Prod.fst hx) (List.mem_cons_self _ _)
    have hins : dictInsertB acc e.1 e.2 = acc ++ [e] := by
      rw [dictInsertB, hk]
      simp
    rw [List.foldl_cons, hins, ih (acc ++ [e]) (by simpa using h)]
    simp

/-- C9: for every attendance dictionary (class-session id → Bool, keys
distinct as in a Python dict), `format_attendance` inverts
`format_attendance_to_string`; and `format_attendance` is total,
returning the empty dictionary for a null cell, the empty string, and an
unparseable string (on which `json.loads` raises `JSONDecodeError`). -/
theorem format_attendance_roundtrip :
    (∀ d : List (String × Bool), (d.map Prod.fst).Nodup →
      format_attendance (.strv (format_attendance_to_string d)) = d) ∧
    format_attendance .nullv = [] ∧
    format_attendance (.strv "") = [] ∧
    format_attendance (.strv "not json") = [] ∧
    jsonLoads "not json" = none := by
  refine ⟨?_, rfl, rfl, by decide, by decide⟩
  intro d hnd
  cases d with
  | nil => rfl
  | cons e rest =>
    have hne : jsonDumps (e :: rest) ≠ "" := by
      intro hc
      have : (jsonDumps (e :: rest)).data = ("" : String).data := by rw [hc]
      simp [jsonDumps] at this
    have hts : format_attendance_to_string (e :: rest) = jsonDumps (e :: rest) := rfl
    have hfold : (e :: rest).foldl (fun a x => dictInsertB a x.1 x.2) []
        = e :: rest := by
      have h := foldl_dictInsertB (e :: rest) [] (by simpa using hnd)
      simpa using h
    rw [format_attendance, hts, if_neg hne, jsonLoads_dumps, hfold]
    rfl

theorem format_attendance_roundtrip_witness :
    (([("Class 1", true), ("Class 2", false)].map Prod.fst).Nodup) ∧
    format_attendance (.strv (format_attendance_to_string
        [("Class 1", true), ("Class 2", false)]))
      = [("Class 1", true), ("Class 2", false)] :=
  ⟨by decide, format_attendance_roundtrip.1 [("Class 1", true), ("Class 2", false)]
    (by decide)⟩

end CourseWebsite
